import Mathlib

/-!
# Loan Calculator (Go): shallow embedding of `task/main.go`

Conventions of the embedding.

* The program is embedded twice. In the exact reading a Go `float64` is a rational
  number (`ℚ`): the arithmetic is taken as exact, and a computation whose exact
  result is not a finite number (a division by zero, the logarithm of a
  non-positive number, ...) yields `none`; the IEEE-754 case analysis is spelled
  out at each place where it happens. In the `float64` reading (the definitions
  whose names end in `F64`) a `float64` is an IEEE-754 binary64 value and every
  operation rounds; it shows where rounding, overflow and `NaN` make the program
  depart from the exact reading.
* A Go `int` is an integer (`ℤ`), without overflow.
* A Go `error` is `Option LoanError`, `none` being `nil`.
* A Go slice is a `List`; the `nil` slice is `[]`.
-/

namespace LoanCalculator

/-! ## Data model -/

/-- The errors of the program: the only one is `errInput`, "Incorrect parameters". -/
inductive LoanError where
  | errInput
deriving DecidableEq, Repr

/-- The constant `annuity`. -/
def annuity : String := "annuity"

/-- The constant `diff`. -/
def diff : String := "diff"

/-- The struct `Loan`: the annual interest rate in percent. -/
structure Loan where
  interest : ℚ
deriving DecidableEq, Repr

/-- What `calculateDiff` returns: `([]float64, float64, error)`. -/
structure DiffResult where
  payments : List ℚ
  overpayment : ℚ
  err : Option LoanError
deriving DecidableEq, Repr

/-! ## Library functions of Go used by the program -/

/-- The function `math.Ceil` at a finite argument: the result is again a `float64`. -/
def ceilF (x : ℚ) : ℚ := ((⌈x⌉ : ℤ) : ℚ)

/-- The call `math.Pow(x, float64(n))` for an `int` n. The result is finite except
for `x = 0` and `n < 0`, where Go returns `+Inf`. -/
def powInt (x : ℚ) (n : ℤ) : Option ℚ :=
  if x = 0 ∧ n < 0 then none else some (x ^ n)

/-- Bounded search: the least `k ≥ n` with `p k` among the next `fuel` candidates
`n, n+1, ..., n+fuel-1`, and `n + fuel` when none of them satisfies `p`. -/
def findFrom (p : ℕ → Bool) : ℕ → ℕ → ℕ
  | 0, n => n
  | fuel + 1, n => if p n then n else findFrom p fuel (n + 1)

/-- The value `⌈log x / log b⌉` for `1 < b` and `0 < x`, computed without logarithms
as the least integer `n` with `x ≤ b ^ n`.

* For `1 < x` the answer is the least natural `n` with `x ≤ b ^ n`; by Bernoulli's
  inequality `b ^ n ≥ 1 + n * (b - 1)`, so `n ≤ ⌈(x - 1) / (b - 1)⌉`, which bounds
  the search.
* For `x ≤ 1` the answer is `-j` for the least natural `j` with `1 < x * b ^ (j + 1)`,
  and `j ≤ ⌈(1 / x - 1) / (b - 1)⌉`.

That this is `⌈Real.log x / Real.log b⌉` is `ceilLogGtOne_eq_ceil_log` below. -/
def ceilLogGtOne (b x : ℚ) : ℤ :=
  if 1 < x then
    ((findFrom (fun n => decide (x ≤ b ^ n)) (⌈(x - 1) / (b - 1)⌉).toNat 0 : ℕ) : ℤ)
  else
    -((findFrom (fun j => decide (1 < x * b ^ (j + 1))) (⌈(x⁻¹ - 1) / (b - 1)⌉).toNat 0 : ℕ) : ℤ)

/-- The value `⌈log x / log b⌉` for `0 < x`, `0 < b` and `b ≠ 1`. For `b < 1` both
logarithms change sign when `x` and `b` are inverted, so the quotient is
`log (1 / x) / log (1 / b)`. -/
def ceilLogQuot (x b : ℚ) : ℤ :=
  if 1 < b then ceilLogGtOne b x else ceilLogGtOne b⁻¹ x⁻¹

/-! ## The methods of `Loan` -/

/-- The method `calculateNominalInterest`: `l.interest / 1200`. -/
def Loan.calculateNominalInterest (l : Loan) : ℚ :=
  l.interest / 1200

/-- The body of the loop of `calculateDiff` at month index `m`, on the state
`(payments, sum)`:
`dm := (principal / float64(months)) + nominalInterest*(principal-(principal*float64(m))/float64(months))`,
`payments[m] = math.Ceil(dm)`, `sum += payments[m]`. -/
def diffStep (nominalInterest principal : ℚ) (months : ℤ) (st : List ℚ × ℚ) (m : ℕ) :
    List ℚ × ℚ :=
  let dm := (principal / (months : ℚ)) +
    nominalInterest * (principal - (principal * (m : ℚ)) / (months : ℚ))
  let payments := st.1.set m (ceilF dm)
  (payments, st.2 + payments.getD m 0)

/-- The payment of month index `m` (0-based) that the loop body of `calculateDiff`
stores: `math.Ceil(dm)`. -/
def diffEntry (nominalInterest principal : ℚ) (months : ℤ) (m : ℕ) : ℚ :=
  ceilF ((principal / (months : ℚ)) +
    nominalInterest * (principal - (principal * (m : ℚ)) / (months : ℚ)))

/-- The method `calculateDiff`. The loop `for m := 0; m < months; m++` runs its body
for `m = 0, ..., months - 1` on the slice `make([]float64, months)` and `sum = 0`. -/
def Loan.calculateDiff (l : Loan) (principal : ℚ) (months : ℤ) : DiffResult :=
  if principal ≤ 0 ∨ months ≤ 0 then
    { payments := [], overpayment := 0, err := some LoanError.errInput }
  else
    let nominalInterest := l.calculateNominalInterest
    let payments0 : List ℚ := List.replicate months.toNat 0
    let st := (List.range months.toNat).foldl (diffStep nominalInterest principal months)
      (payments0, 0)
    let payments := st.1
    let sum := st.2
    let overpayment := sum - principal
    if overpayment > 0 then
      { payments := payments, overpayment := overpayment, err := none }
    else
      { payments := payments, overpayment := 0, err := none }

/-- The method `calculatePayment`:
`math.Ceil(principal * (nominalInterest * pow) / (pow - 1))`.
The result is not finite when `pow` is `+Inf`, and when `pow - 1 = 0`
(a division by zero gives `±Inf` or `NaN`). -/
def Loan.calculatePayment (l : Loan) (principal : ℚ) (months : ℤ) : Option ℚ :=
  let nominalInterest := l.calculateNominalInterest
  match powInt (1 + nominalInterest) months with
  | none => none
  | some pow =>
    if pow - 1 = 0 then none
    else some (ceilF (principal * (nominalInterest * pow) / (pow - 1)))

/-- The method `calculatePrincipal`:
`payment / ((nominalInterest * pow) / (pow - 1))`.

* `pow = +Inf`: the divisor is `-Inf / +Inf = NaN`, the result is `NaN`.
* `pow - 1 = 0`: the divisor is `NaN` when `nominalInterest * pow = 0` (result `NaN`),
  and `±Inf` otherwise, in which case `payment / ±Inf` is zero.
* otherwise the divisor is finite; when it is zero the result is `±Inf` or `NaN`. -/
def Loan.calculatePrincipal (l : Loan) (payment : ℚ) (months : ℤ) : Option ℚ :=
  let nominalInterest := l.calculateNominalInterest
  match powInt (1 + nominalInterest) months with
  | none => none
  | some pow =>
    if pow - 1 = 0 then
      if nominalInterest * pow = 0 then none else some 0
    else
      let k := (nominalInterest * pow) / (pow - 1)
      if k = 0 then none else some (payment / k)

/-- The method `calculatePeriod`:
`log := math.Log(payment/(payment-nominalInterest*principal)) / math.Log(1+nominalInterest)`,
`return int(math.Ceil(log))`. The result is `none` when `log` is `NaN` or `±Inf`:
Go leaves the conversion of such a value to `int` to the implementation.
With `d = payment - nominalInterest*principal`, `x = payment / d` and
`b = 1 + nominalInterest`:

* `d = 0`: `x` is `±Inf` or `NaN`, `math.Log(x)` is `+Inf` or `NaN`, and so is `log`;
* `x < 0`: `math.Log(x)` is `NaN`; `x = 0`: `math.Log(x)` is `-Inf`, `log` is `±Inf` or `NaN`;
* `b < 0`: `math.Log(b)` is `NaN`;
* `b = 0`: `math.Log(b)` is `-Inf` and `log`, a finite number over `-Inf`, is zero;
* `b = 1`: `math.Log(b)` is zero and `log` is `±Inf` or `NaN`;
* otherwise `log` is the finite quotient of the two logarithms. -/
def Loan.calculatePeriod (l : Loan) (principal payment : ℚ) : Option ℤ :=
  let nominalInterest := l.calculateNominalInterest
  let d := payment - nominalInterest * principal
  if d = 0 then none
  else
    let x := payment / d
    let b := 1 + nominalInterest
    if x ≤ 0 then none
    else if b < 0 then none
    else if b = 0 then some 0
    else if b = 1 then none
    else some (ceilLogQuot x b)

/-! ## Free functions -/

/-- The function `convertToYears`:
`int(math.Floor(float64(months) / 12)), int(months) % 12`.
Go's `%` truncates toward zero: it is `Int.tmod`. -/
def convertToYears (months : ℤ) : ℤ × ℤ :=
  (⌊(months : ℚ) / 12⌋, Int.tmod months 12)

/-- The function `validateInterest`. -/
def validateInterest (interest : ℚ) : Option LoanError :=
  if interest ≤ 0 then some LoanError.errInput else none

/-- The function `validateOption`. -/
def validateOption (option : String) : Option LoanError :=
  if option ≠ diff ∧ option ≠ annuity then some LoanError.errInput else none

/-! ## The program -/

/-- The lines the program prints. A line carries the values that are formatted
into it, not the formatted text. -/
inductive Line where
  /-- The text of `errInput`: "Incorrect parameters". -/
  | incorrectParameters
  /-- The line "Month %d: payment is %.0f". -/
  | monthPayment (month : ℤ) (payment : ℚ)
  /-- The line "Overpayment = " followed by the value. -/
  | overpayment (value : ℚ)
  /-- The line "Your annuity payment = %.0f!". -/
  | annuityPayment (payment : ℚ)
  /-- The line "Your loan principal = %.0f!". -/
  | loanPrincipal (principal : ℚ)
  /-- The line "It will take %d years and %d months to repay this loan!". -/
  | yearsAndMonths (years months : ℤ)
  /-- The line "It will take %d years to repay this loan!". -/
  | years (years : ℤ)
  /-- The line "It will take %d months to repay this loan!". -/
  | months (months : ℤ)
deriving DecidableEq, Repr

/-- The statement `if overpayment > 0 { fmt.Println("Overpayment = ", overpayment) }`. -/
def overpaymentLines (overpayment : ℚ) : List Line :=
  if overpayment > 0 then [Line.overpayment overpayment] else []

/-- The loop `for i, payment := range payments` of `main`, printing month `i+1`;
`i` is the index of the first element of `payments`. -/
def monthLines : ℤ → List ℚ → List Line
  | _, [] => []
  | i, payment :: rest => Line.monthPayment (i + 1) payment :: monthLines (i + 1) rest

/-- The function `main`, from the five parsed flags to the lines printed.

* `nonFiniteInt` is the integer that this Go implementation produces when a
  `NaN` or `±Inf` is converted to `int` in `calculatePeriod`.
* The result is `none` when a `NaN` or `±Inf` would be formatted by `calculatePayment`
  or `calculatePrincipal`. -/
def main (nonFiniteInt : ℤ) (principal payment : ℚ) (months : ℤ) (interest : ℚ)
    (typ : String) : Option (List Line) :=
  match validateInterest interest with
  | some _ => some [Line.incorrectParameters]
  | none =>
  match validateOption typ with
  | some _ => some [Line.incorrectParameters]
  | none =>
    let loan : Loan := { interest := interest }
    if typ = diff then
      let r := loan.calculateDiff principal months
      match r.err with
      | some _ => some [Line.incorrectParameters]
      | none => some (monthLines 0 r.payments ++ overpaymentLines r.overpayment)
    else if typ = annuity then
      if principal > 0 ∧ months > 0 then
        match loan.calculatePayment principal months with
        | none => none
        | some payment =>
          let overpayment := payment * (months : ℚ) - principal
          some (Line.annuityPayment payment :: overpaymentLines overpayment)
      else if months > 0 ∧ payment > 0 then
        match loan.calculatePrincipal payment months with
        | none => none
        | some principal =>
          let overpayment := payment * (months : ℚ) - principal
          some (Line.loanPrincipal principal :: overpaymentLines overpayment)
      else if principal > 0 ∧ payment > 0 then
        let months := (loan.calculatePeriod principal payment).getD nonFiniteInt
        let (years, restMonths) := convertToYears months
        let line :=
          if years > 0 ∧ restMonths > 0 then Line.yearsAndMonths years months
          else if years > 0 then Line.years years
          else Line.months restMonths
        let overpayment := payment * (months : ℚ) - principal
        some (line :: overpaymentLines overpayment)
      else some [Line.incorrectParameters]
    else some []

/-- A call that `main` makes to one of the four computing methods of `Loan`, with
its arguments. -/
inductive Call where
  /-- The call `loan.calculateDiff(principal, months)`. -/
  | calculateDiff (principal : ℚ) (months : ℤ)
  /-- The call `loan.calculatePayment(principal, months)`. -/
  | calculatePayment (principal : ℚ) (months : ℤ)
  /-- The call `loan.calculatePrincipal(payment, months)`. -/
  | calculatePrincipal (payment : ℚ) (months : ℤ)
  /-- The call `loan.calculatePeriod(principal, payment)`. -/
  | calculatePeriod (principal payment : ℚ)
deriving DecidableEq, Repr

/-- The calls to the computing methods that `main` makes, in order: the control flow
of `main` with each branch replaced by the call it contains. -/
def mainCalls (principal payment : ℚ) (months : ℤ) (interest : ℚ) (typ : String) :
    List Call :=
  match validateInterest interest with
  | some _ => []
  | none =>
  match validateOption typ with
  | some _ => []
  | none =>
    if typ = diff then [Call.calculateDiff principal months]
    else if typ = annuity then
      if principal > 0 ∧ months > 0 then [Call.calculatePayment principal months]
      else if months > 0 ∧ payment > 0 then [Call.calculatePrincipal payment months]
      else if principal > 0 ∧ payment > 0 then [Call.calculatePeriod principal payment]
      else []
    else []

/-! ## Notions used to state properties -/

/-- The outstanding balance after `k` monthly payments `A` on a loan of `P` at the
monthly rate `i`: `B 0 = P` and `B (k + 1) = B k * (1 + i) - A`. -/
def balance (i A P : ℚ) : ℕ → ℚ
  | 0 => P
  | k + 1 => balance i A P k * (1 + i) - A

/-- How many of principal > 0, periods > 0 and payment > 0 hold. -/
def presentCount (principal payment : ℚ) (months : ℤ) : ℕ :=
  (if 0 < principal then 1 else 0) + (if 0 < months then 1 else 0) +
    (if 0 < payment then 1 else 0)

/-! ## The `float64` model

The definitions above read `float64` as exact rationals. The definitions of this
section read it as IEEE-754 binary64: every operation is the exact operation
followed by rounding to nearest, ties to even, with overflow to `±Inf`, gradual
underflow, signed zeros and `NaN`. Each operation is rounded on its own: products
and sums are not fused. They are used to show where the two readings differ. -/

/-- A `float64` value: a finite number given by its sign and magnitude (`-0` is
`fin true 0`), an infinity, or `NaN`. -/
inductive F64 where
  | fin (neg : Bool) (mag : ℚ)
  | inf (neg : Bool)
  | nan
deriving DecidableEq, Repr

namespace F64

/-- The power `2 ^ t` for an integer `t`. -/
def pow2 (t : ℤ) : ℚ :=
  if 0 ≤ t then ((2 ^ t.toNat : ℕ) : ℚ) else 1 / ((2 ^ (-t).toNat : ℕ) : ℚ)

/-- Halving `n` at most `fuel` times until it is below 2, counting the steps. -/
def log2Aux : ℕ → ℕ → ℕ
  | 0, _ => 0
  | fuel + 1, n => if n < 2 then 0 else log2Aux fuel (n / 2) + 1

/-- The number `⌊log₂ n⌋` for `n > 0`. -/
def natLog2 (n : ℕ) : ℕ := log2Aux n n

/-- The binary exponent of `q > 0`: the integer `e` with `2 ^ e ≤ q < 2 ^ (e + 1)`. -/
def ilog2 (q : ℚ) : ℤ :=
  let k : ℤ := (natLog2 q.num.natAbs : ℤ) - (natLog2 q.den : ℤ)
  if pow2 k ≤ q then k else k - 1

/-- The natural number nearest to `s ≥ 0`, the even one of the two at a tie. -/
def roundHalfEven (s : ℚ) : ℕ :=
  let f := ⌊s⌋.toNat
  let d := s - (f : ℚ)
  if d < 1 / 2 then f
  else if 1 / 2 < d then f + 1
  else if f % 2 = 0 then f else f + 1

/-- Rounding of the exact magnitude `q ≥ 0` with sign `neg` to binary64: 53
significant bits, least exponent -1022 (below it the spacing stays `2 ^ (-1074)`),
and `±Inf` when the rounded magnitude reaches `2 ^ 1024`. -/
def round (neg : Bool) (q : ℚ) : F64 :=
  if q = 0 then fin neg 0
  else
    let t := max (ilog2 q) (-1022) - 52
    let r := (roundHalfEven (q / pow2 t) : ℚ) * pow2 t
    if pow2 1024 ≤ r then inf neg else fin neg r

/-- The `float64` nearest to the rational `q`: a decimal literal or flag value. -/
def ofRat (q : ℚ) : F64 := round (decide (q < 0)) |q|

/-- The conversion `float64(n)` of an `int`. -/
def ofInt (n : ℤ) : F64 := ofRat (n : ℚ)

/-- The value `+0`. -/
def zero : F64 := fin false 0

/-- The exact value of a finite `float64`. -/
def value (neg : Bool) (mag : ℚ) : ℚ := if neg then -mag else mag

/-- The negation `-x`. -/
def neg : F64 → F64
  | fin s m => fin (!s) m
  | inf s => inf (!s)
  | nan => nan

/-- The sum `x + y`. -/
def add : F64 → F64 → F64
  | nan, _ => nan
  | _, nan => nan
  | inf s, inf s' => if s = s' then inf s else nan
  | inf s, fin _ _ => inf s
  | fin _ _, inf s => inf s
  | fin s a, fin s' b =>
    let v := value s a + value s' b
    if v = 0 then fin (s && s') 0 else round (decide (v < 0)) |v|

/-- The difference `x - y`. -/
def sub (x y : F64) : F64 := add x (neg y)

/-- The product `x * y`. -/
def mul : F64 → F64 → F64
  | nan, _ => nan
  | _, nan => nan
  | inf s, inf s' => inf (xor s s')
  | inf s, fin s' b => if b = 0 then nan else inf (xor s s')
  | fin s a, inf s' => if a = 0 then nan else inf (xor s s')
  | fin s a, fin s' b => round (xor s s') (a * b)

/-- The quotient `x / y`. -/
def div : F64 → F64 → F64
  | nan, _ => nan
  | _, nan => nan
  | inf _, inf _ => nan
  | inf s, fin s' _ => inf (xor s s')
  | fin s _, inf s' => fin (xor s s') 0
  | fin s a, fin s' b =>
    if b = 0 then (if a = 0 then nan else inf (xor s s'))
    else round (xor s s') (a / b)

/-- The function `math.Ceil`. -/
def ceil : F64 → F64
  | fin s m =>
    let c := ⌈value s m⌉
    if c = 0 then fin s 0 else fin (decide (c < 0)) (|c| : ℤ)
  | x => x

/-- The function `math.Floor`. -/
def floor : F64 → F64
  | fin s m =>
    let f := ⌊value s m⌋
    if f = 0 then fin s 0 else fin (decide (f < 0)) (|f| : ℤ)
  | x => x

/-- The comparison `x < y`; it is false when either side is `NaN`. -/
def lt : F64 → F64 → Bool
  | nan, _ => false
  | _, nan => false
  | inf s, inf s' => s && !s'
  | inf s, fin _ _ => s
  | fin _ _, inf s => !s
  | fin s a, fin s' b => decide (value s a < value s' b)

/-- The comparison `x <= y`; it is false when either side is `NaN`. -/
def le : F64 → F64 → Bool
  | nan, _ => false
  | _, nan => false
  | inf s, inf s' => s || !s'
  | inf s, fin _ _ => s
  | fin _ _, inf s => !s
  | fin s a, fin s' b => decide (value s a ≤ value s' b)

/-- The conversion `int(x)` to a 64-bit `int`: the value truncated toward zero, and
`none` where Go leaves the result to the implementation (`NaN`, `±Inf`, out of range). -/
def toInt : F64 → Option ℤ
  | fin s m =>
    let n := if s then -⌊m⌋ else ⌊m⌋
    if -(2 : ℤ) ^ 63 ≤ n ∧ n < (2 : ℤ) ^ 63 then some n else none
  | _ => none

/-- The function `math.Log`, with its values at finite positive arguments other than
1 left to the parameter `logFinite`. The special cases are those of the library:
`Log(NaN) = NaN`, `Log(+Inf) = +Inf`, `Log(x < 0) = NaN`, `Log(±0) = -Inf`; and
`Log(1) = 0`. -/
def log (logFinite : ℚ → F64) : F64 → F64
  | nan => nan
  | inf s => if s then nan else inf false
  | fin s m =>
    if m = 0 then inf true
    else if s then nan
    else if m = 1 then fin false 0
    else logFinite m

/-- The call `math.Pow(x, float64(n))` for an `int` n whose conversion `float64(n)`
is exact: the exact power rounded to nearest. The sign is negative for a negative
`x` and an odd `n`. This covers the special cases of the library for an integer
exponent: `Pow(x, 0) = 1`, `Pow(±0, n)` and `Pow(±Inf, n)`. -/
def powInt (x : F64) (n : ℤ) : F64 :=
  if n = 0 then fin false 1
  else
    match x with
    | nan => nan
    | inf s => if 0 < n then inf (s && decide (n % 2 = 1)) else fin (s && decide (n % 2 = 1)) 0
    | fin s m =>
      if m = 0 then
        (if 0 < n then fin (s && decide (n % 2 = 1)) 0 else inf (s && decide (n % 2 = 1)))
      else round (s && decide (n % 2 = 1)) (if 0 ≤ n then m ^ n.toNat else 1 / m ^ (-n).toNat)

end F64

/-- What `calculateDiff` returns, in the `float64` model. -/
structure DiffResultF64 where
  payments : List F64
  overpayment : F64
  err : Option LoanError
deriving DecidableEq, Repr

/-- The method `calculateNominalInterest` in the `float64` model. -/
def calculateNominalInterestF64 (interest : F64) : F64 :=
  F64.div interest (F64.ofRat 1200)

/-- The body of the loop of `calculateDiff` in the `float64` model. -/
def diffStepF64 (nominalInterest principal : F64) (months : ℤ) (st : List F64 × F64)
    (m : ℕ) : List F64 × F64 :=
  let dm := F64.add (F64.div principal (F64.ofInt months))
    (F64.mul nominalInterest
      (F64.sub principal (F64.div (F64.mul principal (F64.ofInt m)) (F64.ofInt months))))
  let payments := st.1.set m (F64.ceil dm)
  (payments, F64.add st.2 (payments.getD m F64.zero))

/-- The method `calculateDiff` in the `float64` model. -/
def calculateDiffF64 (interest principal : F64) (months : ℤ) : DiffResultF64 :=
  if F64.le principal F64.zero = true ∨ months ≤ 0 then
    { payments := [], overpayment := F64.zero, err := some LoanError.errInput }
  else
    let nominalInterest := calculateNominalInterestF64 interest
    let payments0 : List F64 := List.replicate months.toNat F64.zero
    let st := (List.range months.toNat).foldl (diffStepF64 nominalInterest principal months)
      (payments0, F64.zero)
    let payments := st.1
    let sum := st.2
    let overpayment := F64.sub sum principal
    if F64.lt F64.zero overpayment = true then
      { payments := payments, overpayment := overpayment, err := none }
    else
      { payments := payments, overpayment := F64.zero, err := none }

/-- The method `calculatePayment` in the `float64` model. -/
def calculatePaymentF64 (interest principal : F64) (months : ℤ) : F64 :=
  let nominalInterest := calculateNominalInterestF64 interest
  let pow := F64.powInt (F64.add (F64.ofRat 1) nominalInterest) months
  F64.ceil (F64.div (F64.mul principal (F64.mul nominalInterest pow))
    (F64.sub pow (F64.ofRat 1)))

/-- The method `calculatePeriod` in the `float64` model; `none` where the conversion to
`int` is left to the implementation. -/
def calculatePeriodF64 (logFinite : ℚ → F64) (interest principal payment : F64) :
    Option ℤ :=
  let nominalInterest := calculateNominalInterestF64 interest
  let log := F64.div
    (F64.log logFinite
      (F64.div payment (F64.sub payment (F64.mul nominalInterest principal))))
    (F64.log logFinite (F64.add (F64.ofRat 1) nominalInterest))
  F64.toInt (F64.ceil log)

/-- The function `convertToYears` in the `float64` model. -/
def convertToYearsF64 (months : ℤ) : Option ℤ × ℤ :=
  (F64.toInt (F64.floor (F64.div (F64.ofInt months) (F64.ofRat 12))), Int.tmod months 12)

/-! # Theorems -/

/-! ## The differentiated schedule -/

theorem diffStep_at (ni P : ℚ) (months : ℤ) (done : List ℚ) (j : ℕ) (s : ℚ) (k : ℕ)
    (hk : done.length = k) :
    diffStep ni P months (done ++ List.replicate (j + 1) 0, s) k =
      (done ++ diffEntry ni P months k :: List.replicate j 0, s + diffEntry ni P months k) := by
  subst hk
  have hget : ∀ (v : ℚ) (t : List ℚ), (done ++ v :: t).getD done.length 0 = v := by
    intro v t
    rw [List.getD_eq_getElem?_getD, List.getElem?_append_right (Nat.le_refl _)]
    simp
  simp only [diffStep, diffEntry, List.replicate_succ]
  rw [List.set_append_right _ _ (Nat.le_refl _)]
  simp only [Nat.sub_self, List.set_cons_zero, hget]

theorem foldl_diffStep (ni P : ℚ) (months : ℤ) (n k : ℕ) (hk : k ≤ n) :
    (List.range k).foldl (diffStep ni P months) (List.replicate n 0, 0) =
      ((List.range k).map (diffEntry ni P months) ++ List.replicate (n - k) 0,
        ((List.range k).map (diffEntry ni P months)).sum) := by
  induction k with
  | zero => simp
  | succ k ih =>
    have hnk : n - k = (n - (k + 1)) + 1 := by omega
    rw [List.range_succ, List.foldl_append, ih (by omega), hnk]
    simp only [List.foldl_cons, List.foldl_nil]
    rw [diffStep_at _ _ _ _ _ _ _ (by simp)]
    simp [List.range_succ]

/-- On valid input `calculateDiff` returns the list of the `diffEntry` values, the
clamped difference of their sum and the principal, and no error. -/
theorem calculateDiff_eq (l : Loan) (principal : ℚ) (months : ℤ)
    (hp : 0 < principal) (hm : 0 < months) :
    l.calculateDiff principal months =
      { payments := (List.range months.toNat).map
          (diffEntry l.calculateNominalInterest principal months)
        overpayment :=
          if ((List.range months.toNat).map
              (diffEntry l.calculateNominalInterest principal months)).sum - principal > 0
          then ((List.range months.toNat).map
              (diffEntry l.calculateNominalInterest principal months)).sum - principal
          else 0
        err := none } := by
  have hg : ¬ (principal ≤ 0 ∨ months ≤ 0) := by
    rintro (h | h)
    · exact absurd hp (not_lt.mpr h)
    · exact absurd hm (not_lt.mpr h)
  unfold Loan.calculateDiff
  rw [if_neg hg]
  simp only [foldl_diffStep _ _ _ _ _ (Nat.le_refl _), Nat.sub_self, List.replicate_zero,
    List.append_nil]
  split <;> rfl

/-- Every `diffEntry` is a positive whole number when the inputs are positive. -/
theorem diffEntry_pos (ni principal : ℚ) (months : ℤ) (m : ℕ)
    (hni : 0 ≤ ni) (hp : 0 < principal) (hm : (m : ℤ) < months) :
    ∃ n : ℕ, 0 < n ∧ diffEntry ni principal months m = (n : ℚ) := by
  have hmq : (0 : ℚ) < (months : ℚ) := by
    have : (0 : ℤ) < months := lt_of_le_of_lt (Int.natCast_nonneg m) hm
    exact_mod_cast this
  have hlt : ((m : ℚ)) < (months : ℚ) := by exact_mod_cast hm
  have h1 : 0 < principal / (months : ℚ) := div_pos hp hmq
  have h2 : principal * (m : ℚ) / (months : ℚ) < principal := by
    rw [div_lt_iff₀ hmq]
    exact mul_lt_mul_of_pos_left hlt hp
  have hdm : 0 < principal / (months : ℚ) +
      ni * (principal - principal * (m : ℚ) / (months : ℚ)) := by
    have : 0 ≤ ni * (principal - principal * (m : ℚ) / (months : ℚ)) :=
      mul_nonneg hni (by linarith)
    linarith
  have hc : 0 < ⌈principal / (months : ℚ) +
      ni * (principal - principal * (m : ℚ) / (months : ℚ))⌉ := Int.ceil_pos.mpr hdm
  refine ⟨(⌈principal / (months : ℚ) +
      ni * (principal - principal * (m : ℚ) / (months : ℚ))⌉).toNat, ?_, ?_⟩
  · omega
  · unfold diffEntry ceilF
    have : ((⌈principal / (months : ℚ) +
      ni * (principal - principal * (m : ℚ) / (months : ℚ))⌉.toNat : ℤ)) = ⌈principal / (months : ℚ) +
      ni * (principal - principal * (m : ℚ) / (months : ℚ))⌉ := Int.toNat_of_nonneg hc.le
    exact_mod_cast congrArg (fun z : ℤ => (z : ℚ)) this.symm

/-- C1: for principal > 0 and months > 0, `calculateDiff` succeeds and returns exactly
`months` entries, the entry at 0-based index `m` being
`⌈principal/months + (interest/1200) * (principal - principal*m/months)⌉`. -/
theorem calculateDiff_schedule (l : Loan) (principal : ℚ) (months : ℤ)
    (hp : 0 < principal) (hm : 0 < months) :
    (l.calculateDiff principal months).err = none ∧
    ((l.calculateDiff principal months).payments.length : ℤ) = months ∧
    ∀ m : ℕ, (m : ℤ) < months →
      (l.calculateDiff principal months).payments[m]? =
        some ((⌈principal / (months : ℚ) +
          (l.interest / 1200) * (principal - principal * (m : ℚ) / (months : ℚ))⌉ : ℤ) : ℚ) := by
  rw [calculateDiff_eq l principal months hp hm]
  refine ⟨rfl, ?_, ?_⟩
  · simp only [List.length_map, List.length_range]
    exact Int.toNat_of_nonneg hm.le
  · intro m hlt
    have hm' : m < months.toNat := by omega
    simp only [List.getElem?_map, List.getElem?_range hm', Option.map_some']
    rfl

/-- C1, the scenario of the specification: interest 12, principal 100000, 12 months;
the first payment is 9334 and the last one is 8417. -/
theorem calculateDiff_schedule_witness :
    (0 : ℚ) < 100000 ∧ (0 : ℤ) < 12 ∧
    (Loan.calculateDiff { interest := 12 } 100000 12).err = none ∧
    ((Loan.calculateDiff { interest := 12 } 100000 12).payments.length : ℤ) = 12 ∧
    (Loan.calculateDiff { interest := 12 } 100000 12).payments[0]? = some 9334 ∧
    (Loan.calculateDiff { interest := 12 } 100000 12).payments[11]? = some 8417 := by
  have h := calculateDiff_schedule { interest := 12 } 100000 12 (by norm_num) (by norm_num)
  refine ⟨by norm_num, by norm_num, h.1, h.2.1, ?_, ?_⟩
  · rw [h.2.2 0 (by norm_num)]
    have : ⌈(100000 : ℚ) / ((12 : ℤ) : ℚ) +
        (12 : ℚ) / 1200 * (100000 - 100000 * ((0 : ℕ) : ℚ) / ((12 : ℤ) : ℚ))⌉ = 9334 := by
      rw [Int.ceil_eq_iff]; norm_num
    rw [this]; norm_num
  · rw [h.2.2 11 (by norm_num)]
    have : ⌈(100000 : ℚ) / ((12 : ℤ) : ℚ) +
        (12 : ℚ) / 1200 * (100000 - 100000 * ((11 : ℕ) : ℚ) / ((12 : ℤ) : ℚ))⌉ = 8417 := by
      rw [Int.ceil_eq_iff]; norm_num
    rw [this]; norm_num


/-- C2: `calculateDiff` returns `errInput` exactly when principal ≤ 0 or months ≤ 0, and
then it returns the nil schedule and the overpayment 0. -/
theorem calculateDiff_errInput_iff (l : Loan) (principal : ℚ) (months : ℤ) :
    ((l.calculateDiff principal months).err = some LoanError.errInput ↔
      (principal ≤ 0 ∨ months ≤ 0)) ∧
    ((l.calculateDiff principal months).err = some LoanError.errInput →
      (l.calculateDiff principal months).payments = [] ∧
      (l.calculateDiff principal months).overpayment = 0) := by
  by_cases hg : principal ≤ 0 ∨ months ≤ 0
  · have h : l.calculateDiff principal months =
        { payments := [], overpayment := 0, err := some LoanError.errInput } := by
      unfold Loan.calculateDiff
      rw [if_pos hg]
    rw [h]
    exact ⟨⟨fun _ => hg, fun _ => rfl⟩, fun _ => ⟨rfl, rfl⟩⟩
  · have hp : 0 < principal := not_le.mp fun h => hg (Or.inl h)
    have hm : 0 < months := not_le.mp fun h => hg (Or.inr h)
    rw [calculateDiff_eq l principal months hp hm]
    refine ⟨⟨fun h => ?_, fun h => absurd h hg⟩, fun h => ?_⟩
    · exact absurd h (by simp)
    · exact absurd h (by simp)

/-- C3: for principal > 0, months > 0 and interest > 0, the overpayment returned by
`calculateDiff` is the sum of the returned schedule minus the principal when that is
positive and 0 otherwise; it is never negative. -/
theorem calculateDiff_overpayment (l : Loan) (principal : ℚ) (months : ℤ)
    (hp : 0 < principal) (hm : 0 < months) (_hi : 0 < l.interest) :
    (l.calculateDiff principal months).overpayment =
      (if (l.calculateDiff principal months).payments.sum - principal > 0
        then (l.calculateDiff principal months).payments.sum - principal else 0) ∧
    0 ≤ (l.calculateDiff principal months).overpayment := by
  rw [calculateDiff_eq l principal months hp hm]
  refine ⟨rfl, ?_⟩
  show 0 ≤ ite _ _ _
  split
  · next h => exact le_of_lt h
  · exact le_refl 0

/-- C3 at interest 12, principal 100000 and 12 months. -/
theorem calculateDiff_overpayment_witness :
    (0 : ℚ) < 100000 ∧ (0 : ℤ) < 12 ∧ (0 : ℚ) < 12 ∧
    (Loan.calculateDiff { interest := 12 } 100000 12).overpayment =
      (if (Loan.calculateDiff { interest := 12 } 100000 12).payments.sum - 100000 > 0
        then (Loan.calculateDiff { interest := 12 } 100000 12).payments.sum - 100000 else 0) ∧
    0 ≤ (Loan.calculateDiff { interest := 12 } 100000 12).overpayment :=
  ⟨by norm_num, by norm_num, by norm_num,
    calculateDiff_overpayment { interest := 12 } 100000 12 (by norm_num) (by norm_num)
      (by norm_num)⟩

/-- C4, amended: taking the arithmetic as exact, for principal > 0, months > 0 and
interest > 0 every entry of the schedule returned by `calculateDiff` is a natural
number. -/
theorem calculateDiff_entries_nat (l : Loan) (principal : ℚ) (months : ℤ)
    (hp : 0 < principal) (hm : 0 < months) (hi : 0 < l.interest) :
    ∀ x ∈ (l.calculateDiff principal months).payments, ∃ n : ℕ, x = (n : ℚ) := by
  rw [calculateDiff_eq l principal months hp hm]
  intro x hx
  simp only [List.mem_map, List.mem_range] at hx
  obtain ⟨m, hlt, rfl⟩ := hx
  have hni : 0 ≤ l.calculateNominalInterest := by
    unfold Loan.calculateNominalInterest
    exact le_of_lt (div_pos hi (by norm_num))
  obtain ⟨n, _, hn⟩ := diffEntry_pos l.calculateNominalInterest principal months m hni hp
    (by omega)
  exact ⟨n, hn⟩

/-- C4 at interest 12, principal 100000 and 12 months. -/
theorem calculateDiff_entries_nat_witness :
    (0 : ℚ) < 100000 ∧ (0 : ℤ) < 12 ∧ (0 : ℚ) < 12 ∧
    ∀ x ∈ (Loan.calculateDiff { interest := 12 } 100000 12).payments, ∃ n : ℕ, x = (n : ℚ) :=
  ⟨by norm_num, by norm_num, by norm_num,
    calculateDiff_entries_nat { interest := 12 } 100000 12 (by norm_num) (by norm_num)
      (by norm_num)⟩

/-! ## The annuity formulas -/

/-- On `interest > 0` and `months > 0` the payment formula is finite. -/
theorem calculatePayment_of_pos (l : Loan) (principal : ℚ) (months : ℕ)
    (hi : 0 < l.interest) (hm : 0 < months) :
    l.calculatePayment principal (months : ℤ) =
      some (ceilF (principal * (l.interest / 1200 * (1 + l.interest / 1200) ^ months) /
        ((1 + l.interest / 1200) ^ months - 1))) := by
  have hni : 0 < l.interest / 1200 := div_pos hi (by norm_num)
  have hb : 1 < 1 + l.interest / 1200 := by linarith
  have hpow : 1 < (1 + l.interest / 1200) ^ months := one_lt_pow₀ hb (by omega)
  have hne : (1 + l.interest / 1200) ^ months - 1 ≠ 0 := by linarith
  have hx : ¬ (1 + l.interest / 1200 = 0 ∧ ((months : ℕ) : ℤ) < 0) := by
    rintro ⟨h, _⟩; linarith
  simp only [Loan.calculatePayment, Loan.calculateNominalInterest, powInt, if_neg hx,
    zpow_natCast, if_neg hne]

/-- The ceiling in scenario B of the specification (principal 500000, 8 months,
interest 7.8): the exact quotient lies strictly between 64341 and 64342. -/
theorem scenarioB_ceil :
    ⌈(500000 : ℚ) * ((7.8 : ℚ) / 1200 * (1 + (7.8 : ℚ) / 1200) ^ 8) /
      ((1 + (7.8 : ℚ) / 1200) ^ 8 - 1)⌉ = 64342 := by
  rw [Int.ceil_eq_iff]
  norm_num

/-- The payment of scenario B, as the cast of an integer. -/
theorem calculatePayment_scenarioB_cast :
    Loan.calculatePayment { interest := 7.8 } 500000 8 = some (((64342 : ℤ) : ℚ)) := by
  have h := calculatePayment_of_pos { interest := 7.8 } 500000 8 (by norm_num) (by norm_num)
  simp only [ceilF, scenarioB_ceil] at h
  exact_mod_cast h

/-- C5 as stated fails: with interest 7.8, `calculatePayment(500000, 8)` is not 63595. -/
theorem calculatePayment_scenarioB_ne_63595 :
    Loan.calculatePayment { interest := 7.8 } 500000 8 ≠ some 63595 := by
  rw [calculatePayment_scenarioB_cast]
  norm_num

/-- C5, amended: with interest 7.8, `calculatePayment(500000, 8)` returns 64342, the
ceiling of `500000 * 0.0065 * pow / (pow - 1)` with `pow = 1.0065^8`. -/
theorem calculatePayment_scenarioB :
    Loan.calculatePayment { interest := 7.8 } 500000 8 = some 64342 ∧
    (⌈(500000 : ℚ) * (0.0065 * (1.0065 : ℚ) ^ 8) / ((1.0065 : ℚ) ^ 8 - 1)⌉ : ℤ) = 64342 := by
  refine ⟨?_, ?_⟩
  · rw [calculatePayment_scenarioB_cast]
    norm_num
  · rw [Int.ceil_eq_iff]
    norm_num

/-- The annuity factor `i * pow / (pow - 1)` is positive for `i > 0` and `n > 0`. -/
theorem annuityFactor_pos (i : ℚ) (n : ℕ) (hi : 0 < i) (hn : 0 < n) :
    0 < i * (1 + i) ^ n / ((1 + i) ^ n - 1) := by
  have hb : 1 < 1 + i := by linarith
  have hpow : 1 < (1 + i) ^ n := one_lt_pow₀ hb (by omega)
  exact div_pos (mul_pos hi (by linarith)) (by linarith)

/-- On `interest > 0` and `months > 0` the principal formula is finite. -/
theorem calculatePrincipal_of_pos (l : Loan) (payment : ℚ) (months : ℕ)
    (hi : 0 < l.interest) (hm : 0 < months) :
    l.calculatePrincipal payment (months : ℤ) =
      some (payment / (l.interest / 1200 * (1 + l.interest / 1200) ^ months /
        ((1 + l.interest / 1200) ^ months - 1))) := by
  have hni : 0 < l.interest / 1200 := div_pos hi (by norm_num)
  have hb : 1 < 1 + l.interest / 1200 := by linarith
  have hpow : 1 < (1 + l.interest / 1200) ^ months := one_lt_pow₀ hb (by omega)
  have hne : (1 + l.interest / 1200) ^ months - 1 ≠ 0 := by linarith
  have hk : l.interest / 1200 * (1 + l.interest / 1200) ^ months /
        ((1 + l.interest / 1200) ^ months - 1) ≠ 0 :=
    ne_of_gt (annuityFactor_pos _ _ hni hm)
  have hx : ¬ (1 + l.interest / 1200 = 0 ∧ ((months : ℕ) : ℤ) < 0) := by
    rintro ⟨h, _⟩; linarith
  simp only [Loan.calculatePrincipal, Loan.calculateNominalInterest, powInt, if_neg hx,
    zpow_natCast, if_neg hne, if_neg hk]

/-- The growth over `n` periods is at most `n` times the last period's interest:
`(1 + i)^n - 1 ≤ n * i * (1 + i)^n`. -/
theorem pow_sub_one_le (i : ℚ) (n : ℕ) (hi : 0 ≤ i) :
    (1 + i) ^ n - 1 ≤ n * i * (1 + i) ^ n := by
  induction n with
  | zero => simp
  | succ n ih =>
    have hp : 0 ≤ (1 + i) ^ n := pow_nonneg (by linarith) n
    have h1 : 0 ≤ i * (1 + i) ^ n := mul_nonneg hi hp
    have h2 : 0 ≤ i * (i * (1 + i) ^ n) := mul_nonneg hi h1
    have h3 : 0 ≤ (n : ℚ) * (i * (i * (1 + i) ^ n)) := mul_nonneg (Nat.cast_nonneg n) h2
    rw [pow_succ]
    push_cast
    nlinarith

/-- The inverse of the annuity factor is at most the number of periods. -/
theorem inv_annuityFactor_le (i : ℚ) (n : ℕ) (hi : 0 < i) (hn : 0 < n) :
    1 / (i * (1 + i) ^ n / ((1 + i) ^ n - 1)) ≤ n := by
  have hb : 1 < 1 + i := by linarith
  have hpow : 1 < (1 + i) ^ n := one_lt_pow₀ hb (by omega)
  have hnum : 0 < i * (1 + i) ^ n := mul_pos hi (by linarith)
  rw [one_div_div, div_le_iff₀ hnum]
  have := pow_sub_one_le i n hi.le
  linarith

/-- C6: round trip. For interest > 0, principal P > 0 and months m ≥ 1, both
`calculatePayment P m` and `calculatePrincipal` of that payment are finite, and the
principal recovered differs from `P` by at most `m`. -/
theorem calculatePrincipal_calculatePayment (l : Loan) (P : ℚ) (m : ℤ)
    (hi : 0 < l.interest) (_hP : 0 < P) (hm : 1 ≤ m) :
    ∃ A P' : ℚ, l.calculatePayment P m = some A ∧ l.calculatePrincipal A m = some P' ∧
      |P' - P| ≤ (m : ℚ) := by
  obtain ⟨n, rfl⟩ := Int.eq_ofNat_of_zero_le (le_trans (by norm_num) hm)
  have hn : 0 < n := by omega
  have hni : 0 < l.interest / 1200 := div_pos hi (by norm_num)
  refine ⟨_, _, calculatePayment_of_pos l P n hi hn, calculatePrincipal_of_pos l _ n hi hn, ?_⟩
  set k := l.interest / 1200 * (1 + l.interest / 1200) ^ n /
    ((1 + l.interest / 1200) ^ n - 1) with hk
  have hkpos : 0 < k := annuityFactor_pos _ _ hni hn
  have hinv : 1 / k ≤ n := inv_annuityFactor_le _ _ hni hn
  have harg : P * (l.interest / 1200 * (1 + l.interest / 1200) ^ n) /
      ((1 + l.interest / 1200) ^ n - 1) = P * k := by
    rw [hk]; ring
  rw [harg]
  unfold ceilF
  have hlo : P * k ≤ (⌈P * k⌉ : ℚ) := Int.le_ceil _
  have hhi : (⌈P * k⌉ : ℚ) < P * k + 1 := Int.ceil_lt_add_one _
  have hdiff : (⌈P * k⌉ : ℚ) / k - P = ((⌈P * k⌉ : ℚ) - P * k) / k := by
    field_simp
    ring
  have h0 : 0 ≤ ((⌈P * k⌉ : ℚ) - P * k) / k := div_nonneg (by linarith) hkpos.le
  have h1 : ((⌈P * k⌉ : ℚ) - P * k) / k ≤ 1 / k :=
    div_le_div_of_nonneg_right (by linarith) hkpos.le
  rw [Int.cast_natCast, hdiff, abs_of_nonneg h0]
  linarith

/-- C6 at interest 10, principal 1000000 and 60 months. -/
theorem calculatePrincipal_calculatePayment_witness :
    (0 : ℚ) < 10 ∧ (0 : ℚ) < 1000000 ∧ (1 : ℤ) ≤ 60 ∧
    ∃ A P' : ℚ, Loan.calculatePayment { interest := 10 } 1000000 60 = some A ∧
      Loan.calculatePrincipal { interest := 10 } A 60 = some P' ∧
      |P' - 1000000| ≤ ((60 : ℤ) : ℚ) :=
  ⟨by norm_num, by norm_num, by norm_num,
    calculatePrincipal_calculatePayment { interest := 10 } 1000000 60 (by norm_num)
      (by norm_num) (by norm_num)⟩

/-! ## The logarithm of `calculatePeriod` -/

/-- When one of the next `fuel + 1` candidates satisfies `p`, `findFrom` returns the
least candidate `≥ n` that satisfies `p`. -/
theorem findFrom_spec (p : ℕ → Bool) (fuel n : ℕ) (h : ∃ k, k ≤ fuel ∧ p (n + k) = true) :
    p (findFrom p fuel n) = true ∧ n ≤ findFrom p fuel n ∧
      ∀ m, n ≤ m → m < findFrom p fuel n → p m = false := by
  induction fuel generalizing n with
  | zero =>
    obtain ⟨k, hk, hp⟩ := h
    have hk0 : k = 0 := by omega
    subst hk0
    refine ⟨by simpa [findFrom] using hp, by simp [findFrom], ?_⟩
    intro m h1 h2
    simp only [findFrom] at h2
    omega
  | succ fuel ih =>
    by_cases hpn : p n = true
    · refine ⟨by simp [findFrom, hpn], by simp [findFrom, hpn], ?_⟩
      intro m h1 h2
      simp only [findFrom, hpn, if_true] at h2
      omega
    · obtain ⟨k, hk, hp⟩ := h
      have hk0 : k ≠ 0 := by
        rintro rfl
        exact hpn (by simpa using hp)
      obtain ⟨k', rfl⟩ := Nat.exists_eq_succ_of_ne_zero hk0
      have hex : ∃ k, k ≤ fuel ∧ p (n + 1 + k) = true :=
        ⟨k', by omega, by rw [← hp]; congr 1; omega⟩
      obtain ⟨h1, h2, h3⟩ := ih (n + 1) hex
      have hf : findFrom p (fuel + 1) n = findFrom p fuel (n + 1) := by
        simp [findFrom, hpn]
      rw [hf]
      refine ⟨h1, by omega, ?_⟩
      intro m hm1 hm2
      by_cases hmn : m = n
      · subst hmn
        simpa using hpn
      · exact h3 m (by omega) hm2

/-- Bernoulli's inequality in the form that bounds the searches of `ceilLogGtOne`. -/
theorem le_pow_of_div_le (b y : ℚ) (hb : 1 < b) (n : ℕ) (h : (y - 1) / (b - 1) ≤ n) :
    y ≤ b ^ n := by
  have hb' : 0 < b - 1 := by linarith
  have h1 : y - 1 ≤ n * (b - 1) := (div_le_iff₀ hb').mp h
  have h2 : 1 + (n : ℚ) * (b - 1) ≤ (1 + (b - 1)) ^ n :=
    one_add_mul_le_pow (by linarith) n
  have h3 : (1 + (b - 1) : ℚ) = b := by ring
  rw [h3] at h2
  linarith

/-- The fuel of the searches of `ceilLogGtOne` is enough. -/
theorem le_pow_ceil_toNat (b y : ℚ) (hb : 1 < b) :
    y ≤ b ^ (⌈(y - 1) / (b - 1)⌉).toNat := by
  apply le_pow_of_div_le b y hb
  have h1 : (y - 1) / (b - 1) ≤ (⌈(y - 1) / (b - 1)⌉ : ℚ) := Int.le_ceil _
  have h2 : (⌈(y - 1) / (b - 1)⌉ : ℤ) ≤ ((⌈(y - 1) / (b - 1)⌉).toNat : ℤ) := Int.self_le_toNat _
  have h3 : ((⌈(y - 1) / (b - 1)⌉ : ℤ) : ℚ) ≤ (((⌈(y - 1) / (b - 1)⌉).toNat : ℤ) : ℚ) := by
    exact_mod_cast h2
  have h4 : (((⌈(y - 1) / (b - 1)⌉).toNat : ℤ) : ℚ) = ((⌈(y - 1) / (b - 1)⌉).toNat : ℚ) := by
    norm_cast
  linarith

/-- For `1 < b` and `0 < x`, `ceilLogGtOne b x` is the least integer `n` with
`x ≤ b ^ n`. -/
theorem ceilLogGtOne_le_iff (b x : ℚ) (hb : 1 < b) (hx : 0 < x) (k : ℤ) :
    ceilLogGtOne b x ≤ k ↔ x ≤ b ^ k := by
  have hb0 : 0 < b := by linarith
  unfold ceilLogGtOne
  by_cases h1 : 1 < x
  · rw [if_pos h1]
    obtain ⟨hp, -, hmin⟩ := findFrom_spec (fun n => decide (x ≤ b ^ n))
      (⌈(x - 1) / (b - 1)⌉).toNat 0
      ⟨_, le_refl _, by simpa using le_pow_ceil_toNat b x hb⟩
    set n := findFrom (fun n => decide (x ≤ b ^ n)) (⌈(x - 1) / (b - 1)⌉).toNat 0
    have hp' : x ≤ b ^ n := by simpa using hp
    constructor
    · intro hk
      calc x ≤ b ^ (n : ℤ) := by simpa using hp'
        _ ≤ b ^ k := zpow_le_zpow_right₀ hb.le hk
    · intro hxk
      by_contra hlt
      push_neg at hlt
      by_cases hk0 : k < 0
      · have : b ^ k < 1 := zpow_lt_one_of_neg₀ hb hk0
        linarith
      · obtain ⟨m, rfl⟩ := Int.eq_ofNat_of_zero_le (not_lt.mp hk0)
        have hm : m < n := by exact_mod_cast hlt
        have := hmin m (Nat.zero_le _) hm
        simp only [decide_eq_false_iff_not, not_le] at this
        rw [zpow_natCast] at hxk
        linarith
  · rw [if_neg h1]
    have hx1 : x ≤ 1 := not_lt.mp h1
    have hfuel : 1 < x * b ^ ((⌈(x⁻¹ - 1) / (b - 1)⌉).toNat + 1) := by
      have h2 : x⁻¹ ≤ b ^ (⌈(x⁻¹ - 1) / (b - 1)⌉).toNat := le_pow_ceil_toNat b x⁻¹ hb
      have h3 : b ^ (⌈(x⁻¹ - 1) / (b - 1)⌉).toNat <
          b ^ ((⌈(x⁻¹ - 1) / (b - 1)⌉).toNat + 1) := by
        rw [pow_succ]
        have : 0 < b ^ (⌈(x⁻¹ - 1) / (b - 1)⌉).toNat := pow_pos hb0 _
        nlinarith
      have h4 : x⁻¹ < b ^ ((⌈(x⁻¹ - 1) / (b - 1)⌉).toNat + 1) := lt_of_le_of_lt h2 h3
      have h5 := mul_lt_mul_of_pos_left h4 hx
      rwa [mul_inv_cancel₀ (ne_of_gt hx)] at h5
    obtain ⟨hp, -, hmin⟩ := findFrom_spec (fun j => decide (1 < x * b ^ (j + 1)))
      (⌈(x⁻¹ - 1) / (b - 1)⌉).toNat 0
      ⟨_, le_refl _, by simpa using hfuel⟩
    set j := findFrom (fun j => decide (1 < x * b ^ (j + 1))) (⌈(x⁻¹ - 1) / (b - 1)⌉).toNat 0
    have hp' : 1 < x * b ^ (j + 1) := by simpa using hp
    have hbj : 0 < b ^ j := pow_pos hb0 j
    have hxj : x * b ^ j ≤ 1 := by
      rcases Nat.eq_zero_or_pos j with h0 | hpos
      · rw [h0]; simpa using hx1
      · have := hmin (j - 1) (Nat.zero_le _) (by omega)
        simp only [decide_eq_false_iff_not, not_lt] at this
        rwa [Nat.sub_add_cancel hpos] at this
    have hle : x ≤ b ^ (-(j : ℤ)) := by
      rw [zpow_neg, zpow_natCast, ← one_div, le_div_iff₀ hbj]
      exact hxj
    constructor
    · intro hk
      exact le_trans hle (zpow_le_zpow_right₀ hb.le hk)
    · intro hxk
      by_contra hlt
      push_neg at hlt
      have hk : k ≤ -((j + 1 : ℕ) : ℤ) := by push_cast; omega
      have h6 : b ^ k ≤ b ^ (-((j + 1 : ℕ) : ℤ)) := zpow_le_zpow_right₀ hb.le hk
      have h7 : x ≤ b ^ (-((j + 1 : ℕ) : ℤ)) := le_trans hxk h6
      rw [zpow_neg, zpow_natCast, ← one_div, le_div_iff₀ (pow_pos hb0 _)] at h7
      linarith

/-- Over the reals, for `1 < b` and `0 < x`: `log x / log b ≤ k` exactly when
`x ≤ b ^ k`. -/
theorem real_log_div_le_iff (b x : ℝ) (hb : 1 < b) (hx : 0 < x) (k : ℤ) :
    Real.log x / Real.log b ≤ (k : ℝ) ↔ x ≤ b ^ k := by
  have hb0 : 0 < b := by linarith
  have hlb : 0 < Real.log b := Real.log_pos hb
  rw [div_le_iff₀ hlb, ← Real.log_zpow, Real.log_le_log_iff hx (zpow_pos hb0 k)]

/-- The search of `ceilLogGtOne` computes the ceiling of the quotient of the real
logarithms. -/
theorem ceilLogGtOne_eq_ceil_log (b x : ℚ) (hb : 1 < b) (hx : 0 < x) :
    ceilLogGtOne b x = ⌈Real.log (x : ℝ) / Real.log (b : ℝ)⌉ := by
  have hbR : (1 : ℝ) < (b : ℝ) := by exact_mod_cast hb
  have hxR : (0 : ℝ) < (x : ℝ) := by exact_mod_cast hx
  have key : ∀ k : ℤ, ceilLogGtOne b x ≤ k ↔ ⌈Real.log (x : ℝ) / Real.log (b : ℝ)⌉ ≤ k := by
    intro k
    rw [ceilLogGtOne_le_iff b x hb hx k, Int.ceil_le, real_log_div_le_iff _ _ hbR hxR k]
    constructor
    · intro h
      exact_mod_cast h
    · intro h
      exact_mod_cast h
  exact le_antisymm ((key _).mpr (le_refl _)) ((key _).mp (le_refl _))

/-- The value `ceilLogQuot x b` is `⌈log x / log b⌉` for every base `b > 0` other
than 1 and every `x > 0`. -/
theorem ceilLogQuot_eq_ceil_log (x b : ℚ) (hx : 0 < x) (hb : 0 < b) (hb1 : b ≠ 1) :
    ceilLogQuot x b = ⌈Real.log (x : ℝ) / Real.log (b : ℝ)⌉ := by
  unfold ceilLogQuot
  by_cases h : 1 < b
  · rw [if_pos h, ceilLogGtOne_eq_ceil_log b x h hx]
  · rw [if_neg h]
    have hlt : b < 1 := lt_of_le_of_ne (not_lt.mp h) hb1
    have hinv : 1 < b⁻¹ := (one_lt_inv₀ hb).mpr hlt
    rw [ceilLogGtOne_eq_ceil_log b⁻¹ x⁻¹ hinv (inv_pos.mpr hx)]
    push_cast
    rw [Real.log_inv, Real.log_inv, neg_div_neg_eq]

/-- Whenever the quotient of logarithms of `calculatePeriod` is a finite number with a
base other than zero, the model returns its ceiling: this is the formula of the source,
`int(math.Ceil(math.Log(payment/(payment-nominalInterest*principal)) /
math.Log(1+nominalInterest)))`, over the reals. -/
theorem calculatePeriod_eq_ceil_log (l : Loan) (principal payment : ℚ)
    (hd : payment - l.interest / 1200 * principal ≠ 0)
    (hx : 0 < payment / (payment - l.interest / 1200 * principal))
    (hb : 0 < 1 + l.interest / 1200) (hb1 : 1 + l.interest / 1200 ≠ 1) :
    l.calculatePeriod principal payment =
      some ⌈Real.log ((payment / (payment - l.interest / 1200 * principal) : ℚ) : ℝ) /
        Real.log ((1 + l.interest / 1200 : ℚ) : ℝ)⌉ := by
  simp only [Loan.calculatePeriod, Loan.calculateNominalInterest, if_neg hd,
    if_neg (not_le.mpr hx), if_neg (not_lt.mpr hb.le), if_neg (ne_of_gt hb), if_neg hb1]
  rw [ceilLogQuot_eq_ceil_log _ _ hx hb hb1]

/-- On interest > 0, principal > 0 and a payment above the first month's interest, the
argument of the logarithm exceeds 1 and `calculatePeriod` is the search of
`ceilLogGtOne`. -/
theorem calculatePeriod_of_valid (l : Loan) (principal payment : ℚ)
    (hi : 0 < l.interest) (hp : 0 < principal)
    (hpay : l.interest / 1200 * principal < payment) :
    1 < payment / (payment - l.interest / 1200 * principal) ∧
    l.calculatePeriod principal payment =
      some (ceilLogGtOne (1 + l.interest / 1200)
        (payment / (payment - l.interest / 1200 * principal))) := by
  have hni : 0 < l.interest / 1200 := div_pos hi (by norm_num)
  have hip : 0 < l.interest / 1200 * principal := mul_pos hni hp
  have hd : 0 < payment - l.interest / 1200 * principal := by linarith
  have hx : 1 < payment / (payment - l.interest / 1200 * principal) := by
    rw [lt_div_iff₀ hd]; linarith
  have hb : 1 < 1 + l.interest / 1200 := by linarith
  refine ⟨hx, ?_⟩
  simp only [Loan.calculatePeriod, Loan.calculateNominalInterest, if_neg (ne_of_gt hd),
    if_neg (not_le.mpr (lt_trans one_pos hx)), if_neg (not_lt.mpr (le_of_lt (lt_trans one_pos hb))),
    if_neg (ne_of_gt (lt_trans one_pos hb)), if_neg (ne_of_gt hb), ceilLogQuot, if_pos hb]

/-- C7, amended: taking the arithmetic as exact, `calculatePeriod` is monotone in the
payment. For interest > 0, principal > 0 and payments p1 ≤ p2 above the first month's
interest, both periods are finite and the period at p2 is at most the period at p1. -/
theorem calculatePeriod_antitone (l : Loan) (principal p1 p2 : ℚ)
    (hi : 0 < l.interest) (hp : 0 < principal) (h12 : p1 ≤ p2)
    (h1 : l.interest / 1200 * principal < p1) (h2 : l.interest / 1200 * principal < p2) :
    ∃ n1 n2 : ℤ, l.calculatePeriod principal p1 = some n1 ∧
      l.calculatePeriod principal p2 = some n2 ∧ n2 ≤ n1 := by
  obtain ⟨hx1, e1⟩ := calculatePeriod_of_valid l principal p1 hi hp h1
  obtain ⟨hx2, e2⟩ := calculatePeriod_of_valid l principal p2 hi hp h2
  refine ⟨_, _, e1, e2, ?_⟩
  have hni : 0 < l.interest / 1200 := div_pos hi (by norm_num)
  have hb : 1 < 1 + l.interest / 1200 := by linarith
  have hip : 0 < l.interest / 1200 * principal := mul_pos hni hp
  have hd1 : 0 < p1 - l.interest / 1200 * principal := by linarith
  have hd2 : 0 < p2 - l.interest / 1200 * principal := by linarith
  have hxle : p2 / (p2 - l.interest / 1200 * principal) ≤
      p1 / (p1 - l.interest / 1200 * principal) := by
    rw [div_le_div_iff₀ hd2 hd1]
    nlinarith
  rw [ceilLogGtOne_le_iff _ _ hb (lt_trans one_pos hx2)]
  exact le_trans hxle
    ((ceilLogGtOne_le_iff _ _ hb (lt_trans one_pos hx1) _).mp (le_refl _))

/-- C7 at interest 12, principal 1000 and the payments 20 and 30. -/
theorem calculatePeriod_antitone_witness :
    (0 : ℚ) < 12 ∧ (0 : ℚ) < 1000 ∧ (20 : ℚ) ≤ 30 ∧
    (12 : ℚ) / 1200 * 1000 < 20 ∧ (12 : ℚ) / 1200 * 1000 < 30 ∧
    ∃ n1 n2 : ℤ, Loan.calculatePeriod { interest := 12 } 1000 20 = some n1 ∧
      Loan.calculatePeriod { interest := 12 } 1000 30 = some n2 ∧ n2 ≤ n1 :=
  ⟨by norm_num, by norm_num, by norm_num, by norm_num, by norm_num,
    calculatePeriod_antitone { interest := 12 } 1000 20 30 (by norm_num) (by norm_num)
      (by norm_num) (by norm_num) (by norm_num)⟩

/-- C9, amended: taking the arithmetic as exact, for interest > 0, principal > 0 and a
payment above the first month's interest, `calculatePeriod` returns an integer number
of months that is at least 1. -/
theorem calculatePeriod_pos (l : Loan) (principal payment : ℚ)
    (hi : 0 < l.interest) (hp : 0 < principal)
    (hpay : l.interest / 1200 * principal < payment) :
    ∃ n : ℤ, l.calculatePeriod principal payment = some n ∧ 1 ≤ n := by
  obtain ⟨hx, e⟩ := calculatePeriod_of_valid l principal payment hi hp hpay
  refine ⟨_, e, ?_⟩
  have hni : 0 < l.interest / 1200 := div_pos hi (by norm_num)
  have hb : 1 < 1 + l.interest / 1200 := by linarith
  by_contra hlt
  have h0 : ceilLogGtOne (1 + l.interest / 1200)
      (payment / (payment - l.interest / 1200 * principal)) ≤ 0 := by omega
  rw [ceilLogGtOne_le_iff _ _ hb (lt_trans one_pos hx), zpow_zero] at h0
  linarith

/-- C9, the scenario of the specification: interest 11, principal 1000000 and
payment 104000. -/
theorem calculatePeriod_pos_witness :
    (0 : ℚ) < 11 ∧ (0 : ℚ) < 1000000 ∧ (11 : ℚ) / 1200 * 1000000 < 104000 ∧
    ∃ n : ℤ, Loan.calculatePeriod { interest := 11 } 1000000 104000 = some n ∧ 1 ≤ n :=
  ⟨by norm_num, by norm_num, by norm_num,
    calculatePeriod_pos { interest := 11 } 1000000 104000 (by norm_num) (by norm_num)
      (by norm_num)⟩

/-- In the scenario of C9 the period is 11 months. -/
theorem calculatePeriod_scenarioC :
    Loan.calculatePeriod { interest := 11 } 1000000 104000 = some 11 := by
  obtain ⟨hx, e⟩ := calculatePeriod_of_valid { interest := 11 } 1000000 104000
    (by norm_num) (by norm_num) (by norm_num)
  rw [e]
  have hb : (1 : ℚ) < 1 + (11 : ℚ) / 1200 := by norm_num
  have hx0 : (0 : ℚ) < 104000 / (104000 - (11 : ℚ) / 1200 * 1000000) :=
    lt_trans one_pos hx
  show some (ceilLogGtOne (1 + (11 : ℚ) / 1200)
    (104000 / (104000 - (11 : ℚ) / 1200 * 1000000))) = some 11
  congr 1
  apply le_antisymm
  · rw [ceilLogGtOne_le_iff _ _ hb hx0]
    norm_num
  · by_contra hlt
    have h10 : ceilLogGtOne (1 + (11 : ℚ) / 1200)
        (104000 / (104000 - (11 : ℚ) / 1200 * 1000000)) ≤ 10 := by
      have := not_le.mp hlt
      omega
    rw [ceilLogGtOne_le_iff _ _ hb hx0] at h10
    norm_num at h10

/-! ## The period branch of `main` and `convertToYears` -/

/-- With interest 12, principal 1000000 and payment 100 the payment is below the
first month's interest and the logarithm of `calculatePeriod` is not a number. -/
theorem calculatePeriod_uncovered :
    Loan.calculatePeriod { interest := 12 } 1000000 100 = none := by
  simp only [Loan.calculatePeriod, Loan.calculateNominalInterest]
  norm_num

/-- C8 fails on the code: with interest 12, principal 1000000 and payment 100 the
payment does not cover the first month's interest (10000), `calculatePeriod` has no
finite result, and for whichever integer the conversion of that value yields, `main`
prints a repayment line and not "Incorrect parameters". -/
theorem main_uncovered_interest_not_reported :
    (100 : ℚ) ≤ (12 : ℚ) / 1200 * 1000000 ∧
    Loan.calculatePeriod { interest := 12 } 1000000 100 = none ∧
    ∀ nonFiniteInt : ℤ, ∃ line rest,
      main nonFiniteInt 1000000 100 0 12 annuity = some (line :: rest) ∧
      line ≠ Line.incorrectParameters ∧ Line.incorrectParameters ∉ rest := by
  refine ⟨by norm_num, calculatePeriod_uncovered, ?_⟩
  intro nonFiniteInt
  have hvi : validateInterest 12 = none := by
    simp [validateInterest]
  have hvo : validateOption annuity = none := by
    simp [validateOption]
  have hne : ¬ (annuity = diff) := by decide
  simp only [main, hvi, hvo, if_neg hne, calculatePeriod_uncovered, Option.getD_none]
  norm_num
  split_ifs <;> simp [overpaymentLines] <;> split_ifs <;>
    exact ⟨_, _, ⟨rfl, rfl⟩, by simp, by simp⟩

/-- On an implementation where the conversion yields the least 64-bit integer, the
whole output for that input is "It will take -8 months to repay this loan!". -/
theorem main_uncovered_interest_minInt :
    main (-9223372036854775808) 1000000 100 0 12 annuity = some [Line.months (-8)] := by
  have hvi : validateInterest 12 = none := by
    simp [validateInterest]
  have hvo : validateOption annuity = none := by
    simp [validateOption]
  have hne : ¬ (annuity = diff) := by decide
  have hfl : ⌊((-9223372036854775808 : ℤ) : ℚ) / 12⌋ = -768614336404564651 := by
    rw [Int.floor_eq_iff]; norm_num
  have hmod : Int.tmod (-9223372036854775808) 12 = -8 := by decide
  simp only [main, hvi, hvo, if_neg hne, calculatePeriod_uncovered, Option.getD_none,
    convertToYears, hfl, hmod, overpaymentLines]
  norm_num

/-- Taking the division `float64(months) / 12` as exact: for months ≥ 0,
`convertToYears` returns the floor quotient and the remainder of the division of
`months` by 12. -/
theorem convertToYears_spec (months : ℤ) (hm : 0 ≤ months) :
    (convertToYears months).1 = months / 12 ∧
    (convertToYears months).2 = months % 12 ∧
    12 * (convertToYears months).1 + (convertToYears months).2 = months ∧
    0 ≤ (convertToYears months).2 ∧ (convertToYears months).2 < 12 := by
  have h1 : (convertToYears months).1 = months / 12 := by
    have := Rat.floor_intCast_div_natCast months 12
    simpa [convertToYears] using this
  have h2 : (convertToYears months).2 = months % 12 := by
    simp only [convertToYears]
    exact Int.tmod_eq_emod hm (by norm_num)
  rw [h1, h2]
  refine ⟨rfl, rfl, ?_, ?_, ?_⟩ <;> omega

/-- The exact reading of `convertToYears` at 98 months: 8 years and 2 months. -/
theorem convertToYears_spec_witness :
    (0 : ℤ) ≤ 98 ∧ convertToYears 98 = (8, 2) ∧
    (convertToYears 98).1 = 98 / 12 ∧
    (convertToYears 98).2 = 98 % 12 ∧
    12 * (convertToYears 98).1 + (convertToYears 98).2 = 98 ∧
    0 ≤ (convertToYears 98).2 ∧ (convertToYears 98).2 < 12 := by
  have h := convertToYears_spec 98 (by norm_num)
  refine ⟨by norm_num, ?_, h⟩
  have e1 : (convertToYears 98).1 = 8 := by rw [h.1]; norm_num
  have e2 : (convertToYears 98).2 = 2 := by rw [h.2.1]; norm_num
  exact Prod.ext e1 e2

/-! ## The branches of `main` -/

/-- The month lines never contain "Incorrect parameters". -/
theorem incorrectParameters_not_mem_monthLines (i : ℤ) (payments : List ℚ) :
    Line.incorrectParameters ∉ monthLines i payments := by
  induction payments generalizing i with
  | nil => simp [monthLines]
  | cons p rest ih => simp [monthLines, ih]

/-- The overpayment line is not "Incorrect parameters". -/
theorem incorrectParameters_not_mem_overpaymentLines (v : ℚ) :
    Line.incorrectParameters ∉ overpaymentLines v := by
  unfold overpaymentLines
  split_ifs <;> simp

/-- On invalid input `calculateDiff` returns the nil slice, 0 and `errInput`. -/
theorem calculateDiff_of_invalid (l : Loan) (principal : ℚ) (months : ℤ)
    (h : principal ≤ 0 ∨ months ≤ 0) :
    l.calculateDiff principal months =
      { payments := [], overpayment := 0, err := some LoanError.errInput } := by
  unfold Loan.calculateDiff
  rw [if_pos h]

/-- The payment formula is finite for interest > 0 and an `int` months > 0. -/
theorem calculatePayment_of_pos_int (l : Loan) (principal : ℚ) (months : ℤ)
    (hi : 0 < l.interest) (hm : 0 < months) :
    l.calculatePayment principal months =
      some (ceilF (principal *
        (l.interest / 1200 * (1 + l.interest / 1200) ^ months.toNat) /
        ((1 + l.interest / 1200) ^ months.toNat - 1))) := by
  have h := calculatePayment_of_pos l principal months.toNat hi (by omega)
  rwa [Int.toNat_of_nonneg hm.le] at h

/-- The principal formula is finite for interest > 0 and an `int` months > 0. -/
theorem calculatePrincipal_of_pos_int (l : Loan) (payment : ℚ) (months : ℤ)
    (hi : 0 < l.interest) (hm : 0 < months) :
    l.calculatePrincipal payment months =
      some (payment / (l.interest / 1200 * (1 + l.interest / 1200) ^ months.toNat /
        ((1 + l.interest / 1200) ^ months.toNat - 1))) := by
  have h := calculatePrincipal_of_pos l payment months.toNat hi (by omega)
  rwa [Int.toNat_of_nonneg hm.le] at h

/-- The first check of `main`: interest ≤ 0 prints "Incorrect parameters". -/
theorem main_of_interest_nonpos (nonFiniteInt : ℤ) (principal payment : ℚ) (months : ℤ)
    (interest : ℚ) (typ : String) (hi : interest ≤ 0) :
    main nonFiniteInt principal payment months interest typ =
      some [Line.incorrectParameters] := by
  simp [main, validateInterest, hi]

/-- The second check of `main`: an unknown type prints "Incorrect parameters". -/
theorem main_of_unknown_type (nonFiniteInt : ℤ) (principal payment : ℚ) (months : ℤ)
    (interest : ℚ) (typ : String) (hi : 0 < interest) (hd : typ ≠ diff)
    (ha : typ ≠ annuity) :
    main nonFiniteInt principal payment months interest typ =
      some [Line.incorrectParameters] := by
  simp [main, validateInterest, validateOption, not_le.mpr hi, hd, ha]

/-- The branch `case diff` of `main`. -/
theorem main_diff (nonFiniteInt : ℤ) (principal payment : ℚ) (months : ℤ)
    (interest : ℚ) (hi : 0 < interest) :
    main nonFiniteInt principal payment months interest diff =
      if principal ≤ 0 ∨ months ≤ 0 then some [Line.incorrectParameters]
      else some (monthLines 0 (Loan.calculateDiff { interest := interest } principal months).payments ++
        overpaymentLines (Loan.calculateDiff { interest := interest } principal months).overpayment) := by
  have hvi : validateInterest interest = none := by simp [validateInterest, hi]
  have hvo : validateOption diff = none := by simp [validateOption]
  simp only [main, hvi, hvo, if_true]
  by_cases h : principal ≤ 0 ∨ months ≤ 0
  · rw [if_pos h, calculateDiff_of_invalid _ _ _ h]
  · rw [if_neg h]
    have hp : 0 < principal := not_le.mp fun h' => h (Or.inl h')
    have hm : 0 < months := not_le.mp fun h' => h (Or.inr h')
    rw [calculateDiff_eq _ principal months hp hm]

/-- The first branch of `case annuity`: the payment is computed. -/
theorem main_annuity_payment (nonFiniteInt : ℤ) (principal payment : ℚ) (months : ℤ)
    (interest : ℚ) (hi : 0 < interest) (hp : 0 < principal) (hm : 0 < months) :
    ∃ v, Loan.calculatePayment { interest := interest } principal months = some v ∧
      main nonFiniteInt principal payment months interest annuity =
        some (Line.annuityPayment v :: overpaymentLines (v * (months : ℚ) - principal)) := by
  have hvi : validateInterest interest = none := by simp [validateInterest, hi]
  have hvo : validateOption annuity = none := by simp [validateOption]
  have hne : ¬ (annuity = diff) := by decide
  have hc := calculatePayment_of_pos_int { interest := interest } principal months hi hm
  refine ⟨_, hc, ?_⟩
  simp only [main, hvi, hvo, if_neg hne, if_true, gt_iff_lt, hp, hm, and_self, hc]

/-- The second branch of `case annuity`: the principal is computed. -/
theorem main_annuity_principal (nonFiniteInt : ℤ) (principal payment : ℚ) (months : ℤ)
    (interest : ℚ) (hi : 0 < interest) (hp : ¬ 0 < principal) (hm : 0 < months)
    (hpay : 0 < payment) :
    ∃ v, Loan.calculatePrincipal { interest := interest } payment months = some v ∧
      main nonFiniteInt principal payment months interest annuity =
        some (Line.loanPrincipal v :: overpaymentLines (payment * (months : ℚ) - v)) := by
  have hvi : validateInterest interest = none := by simp [validateInterest, hi]
  have hvo : validateOption annuity = none := by simp [validateOption]
  have hne : ¬ (annuity = diff) := by decide
  have hc := calculatePrincipal_of_pos_int { interest := interest } payment months hi hm
  refine ⟨_, hc, ?_⟩
  simp only [main, hvi, hvo, if_neg hne, if_true, gt_iff_lt, hp, hm, hpay, and_self,
    false_and, if_false, hc]

/-- The line that the third branch of `case annuity` prints for a period of `months`. -/
theorem main_annuity_period (nonFiniteInt : ℤ) (principal payment : ℚ) (months : ℤ)
    (interest : ℚ) (hi : 0 < interest) (hp : 0 < principal) (hm : ¬ 0 < months)
    (hpay : 0 < payment) :
    main nonFiniteInt principal payment months interest annuity =
      some ((if 0 < (convertToYears ((Loan.calculatePeriod { interest := interest }
              principal payment).getD nonFiniteInt)).1 ∧
            0 < (convertToYears ((Loan.calculatePeriod { interest := interest }
              principal payment).getD nonFiniteInt)).2
          then Line.yearsAndMonths
            (convertToYears ((Loan.calculatePeriod { interest := interest }
              principal payment).getD nonFiniteInt)).1
            ((Loan.calculatePeriod { interest := interest } principal payment).getD nonFiniteInt)
          else if 0 < (convertToYears ((Loan.calculatePeriod { interest := interest }
              principal payment).getD nonFiniteInt)).1
          then Line.years (convertToYears ((Loan.calculatePeriod { interest := interest }
              principal payment).getD nonFiniteInt)).1
          else Line.months (convertToYears ((Loan.calculatePeriod { interest := interest }
              principal payment).getD nonFiniteInt)).2) ::
        overpaymentLines (payment *
          (((Loan.calculatePeriod { interest := interest } principal payment).getD
            nonFiniteInt : ℤ) : ℚ) - principal)) := by
  have hvi : validateInterest interest = none := by simp [validateInterest, hi]
  have hvo : validateOption annuity = none := by simp [validateOption]
  have hne : ¬ (annuity = diff) := by decide
  simp only [main, hvi, hvo, if_neg hne, if_true, gt_iff_lt, hp, hm, hpay, and_self,
    and_false, false_and, if_false]

/-- The last branch of `case annuity`: no pair of inputs is present. -/
theorem main_annuity_none (nonFiniteInt : ℤ) (principal payment : ℚ) (months : ℤ)
    (interest : ℚ) (hi : 0 < interest) (h1 : ¬ (0 < principal ∧ 0 < months))
    (h2 : ¬ (0 < months ∧ 0 < payment)) (h3 : ¬ (0 < principal ∧ 0 < payment)) :
    main nonFiniteInt principal payment months interest annuity =
      some [Line.incorrectParameters] := by
  have hvi : validateInterest interest = none := by simp [validateInterest, hi]
  have hvo : validateOption annuity = none := by simp [validateOption]
  have hne : ¬ (annuity = diff) := by decide
  simp only [main, hvi, hvo, if_neg hne, if_true, gt_iff_lt, h1, h2, h3, if_false]

/-- On valid input the period is `n` as soon as `(1+i)^(n-1) < x ≤ (1+i)^n` for the
argument `x = payment / (payment - i * principal)` of the logarithm. -/
theorem calculatePeriod_eq_of_bracket (l : Loan) (principal payment : ℚ) (n : ℤ)
    (hi : 0 < l.interest) (hp : 0 < principal)
    (hpay : l.interest / 1200 * principal < payment)
    (hup : payment / (payment - l.interest / 1200 * principal) ≤ (1 + l.interest / 1200) ^ n)
    (hlo : (1 + l.interest / 1200) ^ (n - 1) <
      payment / (payment - l.interest / 1200 * principal)) :
    l.calculatePeriod principal payment = some n := by
  obtain ⟨hx, e⟩ := calculatePeriod_of_valid l principal payment hi hp hpay
  have hni : 0 < l.interest / 1200 := div_pos hi (by norm_num)
  have hb : 1 < 1 + l.interest / 1200 := by linarith
  have hx0 := lt_trans one_pos hx
  rw [e]
  congr 1
  apply le_antisymm
  · exact (ceilLogGtOne_le_iff _ _ hb hx0 n).mpr hup
  · by_contra hlt
    have h1 : ceilLogGtOne (1 + l.interest / 1200)
        (payment / (payment - l.interest / 1200 * principal)) ≤ n - 1 := by
      have := not_le.mp hlt
      omega
    have h2 := (ceilLogGtOne_le_iff _ _ hb hx0 (n - 1)).mp h1
    exact absurd hlo (not_lt.mpr h2)

/-- With interest 10, principal 1000000 and payment 15000 the period is 98 months. -/
theorem calculatePeriod_98 :
    Loan.calculatePeriod { interest := 10 } 1000000 15000 = some 98 := by
  apply calculatePeriod_eq_of_bracket { interest := 10 } 1000000 15000 98
  · show (0 : ℚ) < 10
    norm_num
  · norm_num
  · show (10 : ℚ) / 1200 * 1000000 < 15000
    norm_num
  · show (15000 : ℚ) / (15000 - 10 / 1200 * 1000000) ≤ (1 + 10 / 1200) ^ (98 : ℤ)
    norm_num
  · show (1 + (10 : ℚ) / 1200) ^ ((98 : ℤ) - 1) < 15000 / (15000 - 10 / 1200 * 1000000)
    norm_num

/-- The decomposition of 98 months. -/
theorem convertToYears_98 : convertToYears 98 = (8, 2) := by
  have hfl : ⌊((98 : ℤ) : ℚ) / 12⌋ = 8 := by
    rw [Int.floor_eq_iff]; norm_num
  have hmod : Int.tmod 98 12 = 2 := by decide
  simp only [convertToYears, hfl, hmod]

/-- C11 fails on the code: with interest 10, principal 1000000 and payment 15000 the
period is 98 months, that is 8 years and 2 months, and `main` prints the line
"It will take 8 years and 98 months to repay this loan!": the second number is the
whole period, not the remainder. -/
theorem main_period_prints_total_months :
    Loan.calculatePeriod { interest := 10 } 1000000 15000 = some 98 ∧
    convertToYears 98 = (8, 2) ∧
    ∀ nonFiniteInt : ℤ, main nonFiniteInt 1000000 15000 0 10 annuity =
      some [Line.yearsAndMonths 8 98, Line.overpayment 470000] := by
  refine ⟨calculatePeriod_98, convertToYears_98, ?_⟩
  intro nonFiniteInt
  rw [main_annuity_period nonFiniteInt 1000000 15000 0 10 (by norm_num) (by norm_num)
    (by norm_num) (by norm_num)]
  simp only [calculatePeriod_98, Option.getD_some, convertToYears_98, overpaymentLines]
  norm_num

/-- Fewer than two of the three inputs are present exactly when none of the three
pairs that `main` tests is. -/
theorem presentCount_lt_two_iff (principal payment : ℚ) (months : ℤ) :
    presentCount principal payment months < 2 ↔
      ¬ (0 < principal ∧ 0 < months) ∧ ¬ (0 < months ∧ 0 < payment) ∧
        ¬ (0 < principal ∧ 0 < payment) := by
  unfold presentCount
  by_cases hp : 0 < principal <;> by_cases hm : 0 < months <;> by_cases hpay : 0 < payment <;>
    simp [hp, hm, hpay]

/-- The lines of the period branch never contain "Incorrect parameters". -/
theorem incorrectParameters_not_mem_periodLines (c1 c2 : Prop) [Decidable c1] [Decidable c2]
    (y n r : ℤ) (v : ℚ) :
    Line.incorrectParameters ∉
      (if c1 then Line.yearsAndMonths y n else if c2 then Line.years y else Line.months r) ::
        overpaymentLines v := by
  rw [List.mem_cons]
  rintro (h | h)
  · split_ifs at h
  · exact incorrectParameters_not_mem_overpaymentLines _ h

/-- C12: `main` always produces output; "Incorrect parameters" is printed exactly when
interest ≤ 0, or the type is neither "annuity" nor "diff", or the type is "diff" and
principal ≤ 0 or periods ≤ 0, or the type is "annuity" and fewer than two of
principal > 0, periods > 0, payment > 0 hold; and then it is the only line. -/
theorem main_incorrectParameters_iff (nonFiniteInt : ℤ) (principal payment : ℚ)
    (months : ℤ) (interest : ℚ) (typ : String) :
    ∃ out, main nonFiniteInt principal payment months interest typ = some out ∧
      (Line.incorrectParameters ∈ out ↔
        (interest ≤ 0 ∨ (typ ≠ annuity ∧ typ ≠ diff) ∨
          (typ = diff ∧ (principal ≤ 0 ∨ months ≤ 0)) ∨
          (typ = annuity ∧ presentCount principal payment months < 2))) ∧
      (Line.incorrectParameters ∈ out → out = [Line.incorrectParameters]) := by
  have hne : ¬ (annuity = diff) := by decide
  by_cases hi : interest ≤ 0
  · exact ⟨_, main_of_interest_nonpos _ _ _ _ _ _ hi,
      ⟨fun _ => Or.inl hi, fun _ => List.mem_singleton.mpr rfl⟩, fun _ => rfl⟩
  have hi' : 0 < interest := not_le.mp hi
  by_cases hd : typ = diff
  · subst hd
    rw [main_diff _ _ _ _ _ hi']
    by_cases h : principal ≤ 0 ∨ months ≤ 0
    · rw [if_pos h]
      exact ⟨_, rfl, ⟨fun _ => Or.inr (Or.inr (Or.inl ⟨rfl, h⟩)),
        fun _ => List.mem_singleton.mpr rfl⟩, fun _ => rfl⟩
    · rw [if_neg h]
      have hnot : Line.incorrectParameters ∉
          monthLines 0 (Loan.calculateDiff { interest := interest } principal months).payments ++
            overpaymentLines
              (Loan.calculateDiff { interest := interest } principal months).overpayment := by
        rw [List.mem_append]
        rintro (h' | h')
        · exact incorrectParameters_not_mem_monthLines _ _ h'
        · exact incorrectParameters_not_mem_overpaymentLines _ h'
      refine ⟨_, rfl, ⟨fun h' => absurd h' hnot, ?_⟩, fun h' => absurd h' hnot⟩
      rintro (h' | ⟨-, h'⟩ | ⟨-, h'⟩ | ⟨h', -⟩)
      · exact absurd h' hi
      · exact absurd rfl h'
      · exact absurd h' h
      · exact absurd h'.symm hne
  by_cases ha : typ = annuity
  · subst ha
    by_cases h1 : 0 < principal ∧ 0 < months
    · obtain ⟨v, -, hmain⟩ := main_annuity_payment nonFiniteInt principal payment months
        interest hi' h1.1 h1.2
      have hnot : Line.incorrectParameters ∉
          Line.annuityPayment v :: overpaymentLines (v * (months : ℚ) - principal) := by
        rw [List.mem_cons]
        rintro (h' | h')
        · exact Line.noConfusion h'
        · exact incorrectParameters_not_mem_overpaymentLines _ h'
      refine ⟨_, hmain, ⟨fun h' => absurd h' hnot, ?_⟩, fun h' => absurd h' hnot⟩
      rintro (h' | ⟨h', -⟩ | ⟨h', -⟩ | ⟨-, h'⟩)
      · exact absurd h' hi
      · exact absurd rfl h'
      · exact absurd h' hne
      · exact absurd h1 ((presentCount_lt_two_iff _ _ _).mp h').1
    by_cases h2 : 0 < months ∧ 0 < payment
    · have hp : ¬ 0 < principal := fun hp => h1 ⟨hp, h2.1⟩
      obtain ⟨v, -, hmain⟩ := main_annuity_principal nonFiniteInt principal payment months
        interest hi' hp h2.1 h2.2
      have hnot : Line.incorrectParameters ∉
          Line.loanPrincipal v :: overpaymentLines (payment * (months : ℚ) - v) := by
        rw [List.mem_cons]
        rintro (h' | h')
        · exact Line.noConfusion h'
        · exact incorrectParameters_not_mem_overpaymentLines _ h'
      refine ⟨_, hmain, ⟨fun h' => absurd h' hnot, ?_⟩, fun h' => absurd h' hnot⟩
      rintro (h' | ⟨h', -⟩ | ⟨h', -⟩ | ⟨-, h'⟩)
      · exact absurd h' hi
      · exact absurd rfl h'
      · exact absurd h' hne
      · exact absurd h2 ((presentCount_lt_two_iff _ _ _).mp h').2.1
    by_cases h3 : 0 < principal ∧ 0 < payment
    · have hm : ¬ 0 < months := fun hm => h1 ⟨h3.1, hm⟩
      have hmain := main_annuity_period nonFiniteInt principal payment months interest hi'
        h3.1 hm h3.2
      refine ⟨_, hmain, ?_⟩
      refine ⟨⟨fun h' => absurd h' (incorrectParameters_not_mem_periodLines _ _ _ _ _ _), ?_⟩,
        fun h' => absurd h' (incorrectParameters_not_mem_periodLines _ _ _ _ _ _)⟩
      rintro (h' | ⟨h', -⟩ | ⟨h', -⟩ | ⟨-, h'⟩)
      · exact absurd h' hi
      · exact absurd rfl h'
      · exact absurd h' hne
      · exact absurd h3 ((presentCount_lt_two_iff _ _ _).mp h').2.2
    · exact ⟨_, main_annuity_none _ _ _ _ _ hi' h1 h2 h3,
        ⟨fun _ => Or.inr (Or.inr (Or.inr ⟨rfl, (presentCount_lt_two_iff _ _ _).mpr
          ⟨h1, h2, h3⟩⟩)), fun _ => List.mem_singleton.mpr rfl⟩, fun _ => rfl⟩
  · exact ⟨_, main_of_unknown_type _ _ _ _ _ _ hi' hd ha,
      ⟨fun _ => Or.inr (Or.inl ⟨ha, hd⟩), fun _ => List.mem_singleton.mpr rfl⟩, fun _ => rfl⟩

/-- C12, the invalid scenario of the specification: with interest 0 the whole output is
"Incorrect parameters", here for principal 1000000, periods 60 and type "annuity". -/
theorem main_incorrectParameters_iff_witness :
    main 0 1000000 0 60 0 annuity = some [Line.incorrectParameters] := by
  obtain ⟨out, hmain, hiff, hall⟩ := main_incorrectParameters_iff 0 1000000 0 60 0 annuity
  rw [hmain, hall (hiff.mpr (Or.inl (le_refl 0)))]

/-- C13 as stated fails: with type "annuity", interest 10 and no other input, `main`
invokes none of the three operations and prints "Incorrect parameters". -/
theorem mainCalls_annuity_no_inputs :
    (0 : ℚ) < 10 ∧ mainCalls 0 0 0 10 annuity = [] ∧
    (mainCalls 0 0 0 10 annuity).length ≠ 1 ∧
    ∀ nonFiniteInt : ℤ, main nonFiniteInt 0 0 0 10 annuity =
      some [Line.incorrectParameters] := by
  have hvi : validateInterest 10 = none := by simp [validateInterest]
  have hvo : validateOption annuity = none := by simp [validateOption]
  have hne : ¬ (annuity = diff) := by decide
  have hc : mainCalls 0 0 0 10 annuity = [] := by
    simp [mainCalls, hvi, hvo, hne]
  refine ⟨by norm_num, hc, by simp [hc], ?_⟩
  intro nonFiniteInt
  exact main_annuity_none nonFiniteInt 0 0 0 10 (by norm_num) (by simp) (by simp) (by simp)

/-- C13, amended: for type "annuity" and interest > 0 the operation is chosen in
priority order. With principal > 0 and periods > 0 the only call is `calculatePayment`
and its value is printed, whatever the payment supplied; else with periods > 0 and
payment > 0 the only call is `calculatePrincipal`; else with principal > 0 and
payment > 0 the only call is `calculatePeriod`; otherwise no operation is invoked and
"Incorrect parameters" is printed. At most one operation is invoked per run. -/
theorem mainCalls_annuity_priority (nonFiniteInt : ℤ) (principal payment : ℚ) (months : ℤ)
    (interest : ℚ) (hi : 0 < interest) :
    ((0 < principal ∧ 0 < months) →
      mainCalls principal payment months interest annuity =
        [Call.calculatePayment principal months] ∧
      ∃ v, Loan.calculatePayment { interest := interest } principal months = some v ∧
        main nonFiniteInt principal payment months interest annuity =
          some (Line.annuityPayment v :: overpaymentLines (v * (months : ℚ) - principal))) ∧
    (¬ (0 < principal ∧ 0 < months) → (0 < months ∧ 0 < payment) →
      mainCalls principal payment months interest annuity =
        [Call.calculatePrincipal payment months] ∧
      ∃ v, Loan.calculatePrincipal { interest := interest } payment months = some v ∧
        main nonFiniteInt principal payment months interest annuity =
          some (Line.loanPrincipal v :: overpaymentLines (payment * (months : ℚ) - v))) ∧
    (¬ (0 < principal ∧ 0 < months) → ¬ (0 < months ∧ 0 < payment) →
      (0 < principal ∧ 0 < payment) →
      mainCalls principal payment months interest annuity =
        [Call.calculatePeriod principal payment] ∧
      ∃ line, main nonFiniteInt principal payment months interest annuity =
        some (line :: overpaymentLines (payment *
          (((Loan.calculatePeriod { interest := interest } principal payment).getD
            nonFiniteInt : ℤ) : ℚ) - principal))) ∧
    (¬ (0 < principal ∧ 0 < months) → ¬ (0 < months ∧ 0 < payment) →
      ¬ (0 < principal ∧ 0 < payment) →
      mainCalls principal payment months interest annuity = [] ∧
      main nonFiniteInt principal payment months interest annuity =
        some [Line.incorrectParameters]) ∧
    (mainCalls principal payment months interest annuity).length ≤ 1 := by
  have hvi : validateInterest interest = none := by simp [validateInterest, hi]
  have hvo : validateOption annuity = none := by simp [validateOption]
  have hne : ¬ (annuity = diff) := by decide
  have hcalls : mainCalls principal payment months interest annuity =
      if principal > 0 ∧ months > 0 then [Call.calculatePayment principal months]
      else if months > 0 ∧ payment > 0 then [Call.calculatePrincipal payment months]
      else if principal > 0 ∧ payment > 0 then [Call.calculatePeriod principal payment]
      else [] := by
    simp only [mainCalls, hvi, hvo, if_neg hne, if_true]
  refine ⟨?_, ?_, ?_, ?_, ?_⟩
  · intro h1
    refine ⟨?_, main_annuity_payment nonFiniteInt principal payment months interest hi
      h1.1 h1.2⟩
    rw [hcalls, if_pos h1]
  · intro h1 h2
    have hp : ¬ 0 < principal := fun hp => h1 ⟨hp, h2.1⟩
    refine ⟨?_, main_annuity_principal nonFiniteInt principal payment months interest hi
      hp h2.1 h2.2⟩
    rw [hcalls, if_neg h1, if_pos h2]
  · intro h1 h2 h3
    have hm : ¬ 0 < months := fun hm => h1 ⟨h3.1, hm⟩
    refine ⟨?_, _, main_annuity_period nonFiniteInt principal payment months interest hi
      h3.1 hm h3.2⟩
    rw [hcalls, if_neg h1, if_neg h2, if_pos h3]
  · intro h1 h2 h3
    refine ⟨?_, main_annuity_none nonFiniteInt principal payment months interest hi h1 h2 h3⟩
    rw [hcalls, if_neg h1, if_neg h2, if_neg h3]
  · rw [hcalls]
    split_ifs <;> simp

/-- C13 at interest 10 with principal 1000000, periods 60 and a payment of 5 also
supplied: the payment is computed. -/
theorem mainCalls_annuity_priority_witness :
    (0 : ℚ) < 10 ∧
    mainCalls 1000000 5 60 10 annuity = [Call.calculatePayment 1000000 60] ∧
    (mainCalls 1000000 5 60 10 annuity).length ≤ 1 := by
  have h := mainCalls_annuity_priority 0 1000000 5 60 10 (by norm_num)
  exact ⟨by norm_num, (h.1 ⟨by norm_num, by norm_num⟩).1, h.2.2.2.2⟩

/-- The growth over `n ≥ 1` periods is less than `n` times the last period's interest:
`(1 + i)^n - 1 < n * i * (1 + i)^n` for `i > 0`. -/
theorem pow_sub_one_lt (i : ℚ) (n : ℕ) (hi : 0 < i) (hn : 0 < n) :
    (1 + i) ^ n - 1 < n * i * (1 + i) ^ n := by
  obtain ⟨k, rfl⟩ := Nat.exists_eq_succ_of_ne_zero (Nat.pos_iff_ne_zero.mp hn)
  have h1 := pow_sub_one_le i k hi.le
  have hp : 0 < (1 + i) ^ k := pow_pos (by linarith) k
  have h2 : 0 < i * (i * (1 + i) ^ k) := mul_pos hi (mul_pos hi hp)
  have h3 : 0 ≤ (k : ℚ) * (i * (i * (1 + i) ^ k)) := mul_nonneg (Nat.cast_nonneg k) h2.le
  rw [pow_succ]
  push_cast
  nlinarith

/-- The annuity factor times the number of periods exceeds 1. -/
theorem one_lt_annuityFactor_mul (i : ℚ) (n : ℕ) (hi : 0 < i) (hn : 0 < n) :
    1 < i * (1 + i) ^ n / ((1 + i) ^ n - 1) * n := by
  have hb : 1 < 1 + i := by linarith
  have hpow : 1 < (1 + i) ^ n := one_lt_pow₀ hb (by omega)
  have hden : 0 < (1 + i) ^ n - 1 := by linarith
  have h := pow_sub_one_lt i n hi hn
  rw [div_mul_eq_mul_div, lt_div_iff₀ hden]
  linarith

/-- C16, amended: taking the arithmetic as exact, for interest > 0, principal > 0 and
months ≥ 1 the payment is finite, the total `calculatePayment(principal, months) * months`
exceeds the principal, and the annuity payment branch of `main` prints the payment and
the positive overpayment. -/
theorem calculatePayment_total_gt_principal (l : Loan) (principal : ℚ) (months : ℤ)
    (hi : 0 < l.interest) (hp : 0 < principal) (hm : 1 ≤ months) :
    ∃ v, l.calculatePayment principal months = some v ∧
      principal < v * (months : ℚ) ∧
      0 < v * (months : ℚ) - principal ∧
      ∀ (nonFiniteInt : ℤ) (payment : ℚ),
        main nonFiniteInt principal payment months l.interest annuity =
          some [Line.annuityPayment v, Line.overpayment (v * (months : ℚ) - principal)] := by
  have hm0 : 0 < months := by omega
  have hni : 0 < l.interest / 1200 := div_pos hi (by norm_num)
  have hn : 0 < months.toNat := by omega
  have hcast : ((months.toNat : ℕ) : ℚ) = (months : ℚ) := by
    have : ((months.toNat : ℕ) : ℤ) = months := Int.toNat_of_nonneg hm0.le
    exact_mod_cast congrArg (fun z : ℤ => (z : ℚ)) this
  have hc := calculatePayment_of_pos_int l principal months hi hm0
  have hk := annuityFactor_pos (l.interest / 1200) months.toNat hni hn
  have hkm := one_lt_annuityFactor_mul (l.interest / 1200) months.toNat hni hn
  rw [hcast] at hkm
  have harg : principal * (l.interest / 1200 * (1 + l.interest / 1200) ^ months.toNat) /
      ((1 + l.interest / 1200) ^ months.toNat - 1) =
      principal * (l.interest / 1200 * (1 + l.interest / 1200) ^ months.toNat /
      ((1 + l.interest / 1200) ^ months.toNat - 1)) := by ring
  rw [harg] at hc
  set k := l.interest / 1200 * (1 + l.interest / 1200) ^ months.toNat /
      ((1 + l.interest / 1200) ^ months.toNat - 1) with hkdef
  have hmq : (0 : ℚ) < (months : ℚ) := by exact_mod_cast hm0
  have hceil : principal * k ≤ ceilF (principal * k) := Int.le_ceil _
  have hgt : principal < ceilF (principal * k) * (months : ℚ) := by
    have h1 : principal * 1 < principal * (k * (months : ℚ)) :=
      mul_lt_mul_of_pos_left hkm hp
    have h2 : principal * k * (months : ℚ) ≤ ceilF (principal * k) * (months : ℚ) :=
      mul_le_mul_of_nonneg_right hceil hmq.le
    nlinarith
  refine ⟨_, hc, hgt, by linarith, ?_⟩
  intro nonFiniteInt payment
  obtain ⟨v, hv, hmain⟩ := main_annuity_payment nonFiniteInt principal payment months
    l.interest hi hp hm0
  have hv' : l.calculatePayment principal months = some v := hv
  rw [hc] at hv'
  have hveq : ceilF (principal * k) = v := Option.some.inj hv'
  rw [hmain, ← hveq, overpaymentLines, if_pos (by linarith)]

/-- C16 at interest 10, principal 1000000 and 60 months. -/
theorem calculatePayment_total_gt_principal_witness :
    (0 : ℚ) < 10 ∧ (0 : ℚ) < 1000000 ∧ (1 : ℤ) ≤ 60 ∧
    ∃ v, Loan.calculatePayment { interest := 10 } 1000000 60 = some v ∧
      (1000000 : ℚ) < v * ((60 : ℤ) : ℚ) := by
  obtain ⟨v, h1, h2, -, -⟩ := calculatePayment_total_gt_principal { interest := 10 }
    1000000 60 (by norm_num) (by norm_num) (by norm_num)
  exact ⟨by norm_num, by norm_num, by norm_num, v, h1, h2⟩

/-! ## The period as the least number of covering months -/

/-- An annuity of `n` payments `A` covers the principal `P` exactly when the argument
`A / (A - i * P)` of the logarithm of `calculatePeriod` is at most `(1 + i)^n`. -/
theorem principal_le_iff (i A P : ℚ) (n : ℕ) (hi : 0 < i) (hn : 0 < n) (hA : i * P < A) :
    P ≤ A / (i * (1 + i) ^ n / ((1 + i) ^ n - 1)) ↔ A / (A - i * P) ≤ (1 + i) ^ n := by
  have hb : 1 < 1 + i := by linarith
  have hpow : 1 < (1 + i) ^ n := one_lt_pow₀ hb (by omega)
  have hden : 0 < (1 + i) ^ n - 1 := by linarith
  have hd : 0 < A - i * P := by linarith
  have hk : 0 < i * (1 + i) ^ n / ((1 + i) ^ n - 1) := annuityFactor_pos i n hi hn
  rw [le_div_iff₀ hk, div_le_iff₀ hd, mul_div_assoc', div_le_iff₀ hden]
  constructor <;> intro h <;> nlinarith

/-- For an `int` number of months k ≥ 1 the principal formula is finite, and it covers
the principal exactly when `payment / (payment - i * principal) ≤ (1 + i)^k`. -/
theorem calculatePrincipal_covers_iff (l : Loan) (principal payment : ℚ) (k : ℤ)
    (hi : 0 < l.interest) (hpay : l.interest / 1200 * principal < payment) (hk : 1 ≤ k) :
    ∃ v, l.calculatePrincipal payment k = some v ∧
      (principal ≤ v ↔
        payment / (payment - l.interest / 1200 * principal) ≤ (1 + l.interest / 1200) ^ k) := by
  have hk0 : 0 < k := by omega
  have hni : 0 < l.interest / 1200 := div_pos hi (by norm_num)
  refine ⟨_, calculatePrincipal_of_pos_int l payment k hi hk0, ?_⟩
  have hz : (1 + l.interest / 1200) ^ k = (1 + l.interest / 1200) ^ k.toNat := by
    conv_lhs => rw [← Int.toNat_of_nonneg hk0.le]
    exact zpow_natCast _ _
  rw [hz]
  exact principal_le_iff _ _ _ _ hni (by omega) hpay

/-- C14: for interest > 0, principal > 0 and a payment above the first month's interest,
the period `n` returned by `calculatePeriod` is at least 1, `calculatePrincipal(payment, n)`
is at least the principal, and `calculatePrincipal(payment, k)` is below the principal
for every integer `k` with `1 ≤ k < n`. -/
theorem calculatePeriod_least_covering (l : Loan) (principal payment : ℚ)
    (hi : 0 < l.interest) (hp : 0 < principal)
    (hpay : l.interest / 1200 * principal < payment) :
    ∃ n : ℤ, l.calculatePeriod principal payment = some n ∧ 1 ≤ n ∧
      (∃ v, l.calculatePrincipal payment n = some v ∧ principal ≤ v) ∧
      ∀ k : ℤ, 1 ≤ k → k < n →
        ∃ v, l.calculatePrincipal payment k = some v ∧ v < principal := by
  obtain ⟨hx, e⟩ := calculatePeriod_of_valid l principal payment hi hp hpay
  have hni : 0 < l.interest / 1200 := div_pos hi (by norm_num)
  have hb : 1 < 1 + l.interest / 1200 := by linarith
  have hx0 := lt_trans one_pos hx
  have hchar := ceilLogGtOne_le_iff (1 + l.interest / 1200)
    (payment / (payment - l.interest / 1200 * principal)) hb hx0
  have hn1 : 1 ≤ ceilLogGtOne (1 + l.interest / 1200)
      (payment / (payment - l.interest / 1200 * principal)) := by
    by_contra hlt
    have h0 : ceilLogGtOne (1 + l.interest / 1200)
        (payment / (payment - l.interest / 1200 * principal)) ≤ 0 := by omega
    rw [hchar, zpow_zero] at h0
    linarith
  refine ⟨_, e, hn1, ?_, ?_⟩
  · obtain ⟨v, hv, hiff⟩ := calculatePrincipal_covers_iff l principal payment _ hi hpay hn1
    exact ⟨v, hv, hiff.mpr ((hchar _).mp (le_refl _))⟩
  · intro k hk1 hkn
    obtain ⟨v, hv, hiff⟩ := calculatePrincipal_covers_iff l principal payment k hi hpay hk1
    refine ⟨v, hv, ?_⟩
    by_contra hge
    have := (hchar k).mpr (hiff.mp (not_lt.mp hge))
    omega

/-- C14 at interest 11, principal 1000000 and payment 104000. -/
theorem calculatePeriod_least_covering_witness :
    (0 : ℚ) < 11 ∧ (0 : ℚ) < 1000000 ∧ (11 : ℚ) / 1200 * 1000000 < 104000 ∧
    ∃ n : ℤ, Loan.calculatePeriod { interest := 11 } 1000000 104000 = some n ∧ 1 ≤ n ∧
      (∃ v, Loan.calculatePrincipal { interest := 11 } 104000 n = some v ∧ 1000000 ≤ v) ∧
      ∀ k : ℤ, 1 ≤ k → k < n →
        ∃ v, Loan.calculatePrincipal { interest := 11 } 104000 k = some v ∧ v < 1000000 :=
  ⟨by norm_num, by norm_num, by norm_num,
    calculatePeriod_least_covering { interest := 11 } 1000000 104000 (by norm_num)
      (by norm_num) (by norm_num)⟩

/-! ## Amortisation -/

/-- The closed form of the balance, multiplied by the rate. -/
theorem mul_balance (i A P : ℚ) (k : ℕ) :
    i * balance i A P k = i * P * (1 + i) ^ k - A * ((1 + i) ^ k - 1) := by
  induction k with
  | zero => simp [balance]
  | succ k ih =>
    have : i * balance i A P (k + 1) = (i * balance i A P k) * (1 + i) - i * A := by
      simp only [balance]; ring
    rw [this, ih, pow_succ]
    ring

/-- C15: for interest > 0, payment A > 0 and months m ≥ 1, the principal
`P = calculatePrincipal(A, m)` is finite and the balance `B 0 = P`,
`B (k+1) = B k * (1 + i) - A` with `i = interest/1200` is zero after `m` payments. -/
theorem calculatePrincipal_amortises (l : Loan) (A : ℚ) (m : ℤ)
    (hi : 0 < l.interest) (_hA : 0 < A) (hm : 1 ≤ m) :
    ∃ P, l.calculatePrincipal A m = some P ∧
      balance (l.interest / 1200) A P m.toNat = 0 := by
  have hm0 : 0 < m := by omega
  have hni : 0 < l.interest / 1200 := div_pos hi (by norm_num)
  have hn : 0 < m.toNat := by omega
  refine ⟨_, calculatePrincipal_of_pos_int l A m hi hm0, ?_⟩
  have hb : 1 < 1 + l.interest / 1200 := by linarith
  have hpow : 1 < (1 + l.interest / 1200) ^ m.toNat := one_lt_pow₀ hb (by omega)
  have hden : (1 + l.interest / 1200) ^ m.toNat - 1 ≠ 0 := by linarith
  have hpw : (1 + l.interest / 1200) ^ m.toNat ≠ 0 := by linarith
  have h := mul_balance (l.interest / 1200) A
    (A / (l.interest / 1200 * (1 + l.interest / 1200) ^ m.toNat /
      ((1 + l.interest / 1200) ^ m.toNat - 1))) m.toNat
  have hz : l.interest / 1200 *
      (A / (l.interest / 1200 * (1 + l.interest / 1200) ^ m.toNat /
        ((1 + l.interest / 1200) ^ m.toNat - 1))) * (1 + l.interest / 1200) ^ m.toNat -
      A * ((1 + l.interest / 1200) ^ m.toNat - 1) = 0 := by
    field_simp
    ring
  rw [hz] at h
  rcases mul_eq_zero.mp h with h0 | h0
  · exact absurd h0 (ne_of_gt hni)
  · exact h0

/-- C15 at interest 12, payment 1000 and 24 months. -/
theorem calculatePrincipal_amortises_witness :
    (0 : ℚ) < 12 ∧ (0 : ℚ) < 1000 ∧ (1 : ℤ) ≤ 24 ∧
    ∃ P, Loan.calculatePrincipal { interest := 12 } 1000 24 = some P ∧
      balance ((12 : ℚ) / 1200) 1000 P (24 : ℤ).toNat = 0 :=
  ⟨by norm_num, by norm_num, by norm_num,
    calculatePrincipal_amortises { interest := 12 } 1000 24 (by norm_num) (by norm_num)
      (by norm_num)⟩

/-! ## The differentiated schedule: total interest and monotonicity -/

/-- The raw payment `dm` is at most the entry stored for it. -/
theorem raw_le_diffEntry (ni P : ℚ) (months : ℤ) (m : ℕ) :
    P / (months : ℚ) + ni * (P - P * (m : ℚ) / (months : ℚ)) ≤ diffEntry ni P months m :=
  Int.le_ceil _

/-- The sum of the first `k` entries is at least the sum of the first `k` raw payments,
`k * (P / M) + ni * (k * P - P * (k * (k - 1) / 2) / M)`. -/
theorem sum_diffEntry_ge (ni P : ℚ) (months : ℤ) (k : ℕ) :
    (k : ℚ) * (P / (months : ℚ)) +
        ni * ((k : ℚ) * P - P * ((k : ℚ) * ((k : ℚ) - 1) / 2) / (months : ℚ)) ≤
      ((List.range k).map (diffEntry ni P months)).sum := by
  induction k with
  | zero => simp
  | succ k ih =>
    rw [List.range_succ, List.map_append, List.sum_append]
    simp only [List.map_cons, List.map_nil, List.sum_cons, List.sum_nil, add_zero]
    have h := raw_le_diffEntry ni P months k
    have hsplit : ((k + 1 : ℕ) : ℚ) * (P / (months : ℚ)) +
        ni * (((k + 1 : ℕ) : ℚ) * P -
          P * (((k + 1 : ℕ) : ℚ) * (((k + 1 : ℕ) : ℚ) - 1) / 2) / (months : ℚ)) =
        ((k : ℚ) * (P / (months : ℚ)) +
          ni * ((k : ℚ) * P - P * ((k : ℚ) * ((k : ℚ) - 1) / 2) / (months : ℚ))) +
        (P / (months : ℚ) + ni * (P - P * (k : ℚ) / (months : ℚ))) := by
      push_cast
      ring
    rw [hsplit]
    linarith

/-- C17, amended: taking the arithmetic as exact, for interest > 0, principal > 0 and
months > 0 the overpayment returned by `calculateDiff` is positive, is at least
`principal * (interest/1200) * (months + 1) / 2`, and is the unclamped difference of the
sum of the schedule and the principal. -/
theorem calculateDiff_overpayment_pos (l : Loan) (principal : ℚ) (months : ℤ)
    (hi : 0 < l.interest) (hp : 0 < principal) (hm : 0 < months) :
    0 < (l.calculateDiff principal months).overpayment ∧
    principal * (l.interest / 1200) * ((months : ℚ) + 1) / 2 ≤
      (l.calculateDiff principal months).overpayment ∧
    (l.calculateDiff principal months).overpayment =
      (l.calculateDiff principal months).payments.sum - principal := by
  have hni : 0 < l.interest / 1200 := div_pos hi (by norm_num)
  have hmq : (0 : ℚ) < (months : ℚ) := by exact_mod_cast hm
  have hcast : ((months.toNat : ℕ) : ℚ) = (months : ℚ) := by
    have : ((months.toNat : ℕ) : ℤ) = months := Int.toNat_of_nonneg hm.le
    exact_mod_cast congrArg (fun z : ℤ => (z : ℚ)) this
  have hsum := sum_diffEntry_ge (l.interest / 1200) principal months months.toNat
  rw [hcast] at hsum
  have hclosed : (months : ℚ) * (principal / (months : ℚ)) +
      l.interest / 1200 * ((months : ℚ) * principal -
        principal * ((months : ℚ) * ((months : ℚ) - 1) / 2) / (months : ℚ)) =
      principal + principal * (l.interest / 1200) * ((months : ℚ) + 1) / 2 := by
    field_simp
    ring
  rw [hclosed] at hsum
  have hint : 0 < principal * (l.interest / 1200) * ((months : ℚ) + 1) / 2 := by
    have : 0 < principal * (l.interest / 1200) * ((months : ℚ) + 1) :=
      mul_pos (mul_pos hp hni) (by linarith)
    linarith
  have hgt : ((List.range months.toNat).map
      (diffEntry l.calculateNominalInterest principal months)).sum - principal > 0 := by
    show 0 < ((List.range months.toNat).map
      (diffEntry (l.interest / 1200) principal months)).sum - principal
    linarith
  rw [calculateDiff_eq l principal months hp hm]
  simp only [if_pos hgt]
  refine ⟨hgt, ?_, trivial⟩
  show principal * (l.interest / 1200) * ((months : ℚ) + 1) / 2 ≤
    ((List.range months.toNat).map
      (diffEntry (l.interest / 1200) principal months)).sum - principal
  linarith

/-- C17 at interest 12, principal 100000 and 12 months: the overpayment is at least the
total interest 6500. -/
theorem calculateDiff_overpayment_pos_witness :
    (0 : ℚ) < 12 ∧ (0 : ℚ) < 100000 ∧ (0 : ℤ) < 12 ∧
    0 < (Loan.calculateDiff { interest := 12 } 100000 12).overpayment ∧
    (6500 : ℚ) ≤ (Loan.calculateDiff { interest := 12 } 100000 12).overpayment := by
  obtain ⟨h1, h2, -⟩ := calculateDiff_overpayment_pos { interest := 12 } 100000 12
    (by norm_num) (by norm_num) (by norm_num)
  refine ⟨by norm_num, by norm_num, by norm_num, h1, ?_⟩
  have e : (100000 : ℚ) * ((12 : ℚ) / 1200) * (((12 : ℤ) : ℚ) + 1) / 2 = 6500 := by norm_num
  have h2' : (100000 : ℚ) * ((12 : ℚ) / 1200) * (((12 : ℤ) : ℚ) + 1) / 2 ≤
      (Loan.calculateDiff { interest := 12 } 100000 12).overpayment := h2
  rwa [e] at h2'

/-- The entries decrease with the month index when the rate and the principal are not
negative. -/
theorem diffEntry_succ_le (ni P : ℚ) (months : ℤ) (m : ℕ) (hni : 0 ≤ ni) (hp : 0 ≤ P)
    (hm : 0 < months) :
    diffEntry ni P months (m + 1) ≤ diffEntry ni P months m := by
  have hmq : (0 : ℚ) < (months : ℚ) := by exact_mod_cast hm
  unfold diffEntry ceilF
  have hle : P * (m : ℚ) / (months : ℚ) ≤ P * ((m + 1 : ℕ) : ℚ) / (months : ℚ) := by
    apply div_le_div_of_nonneg_right _ hmq.le
    apply mul_le_mul_of_nonneg_left _ hp
    push_cast
    linarith
  have hraw : P / (months : ℚ) + ni * (P - P * ((m + 1 : ℕ) : ℚ) / (months : ℚ)) ≤
      P / (months : ℚ) + ni * (P - P * (m : ℚ) / (months : ℚ)) := by
    have := mul_le_mul_of_nonneg_left
      (sub_le_sub_left hle P) hni
    linarith
  exact_mod_cast Int.ceil_mono hraw

/-- C18, amended: taking the arithmetic as exact, for interest > 0, principal > 0 and
months > 0 the schedule returned by `calculateDiff` is non-increasing: the entry at
index `m + 1` is at most the entry at index `m` whenever `m + 1 < months`. -/
theorem calculateDiff_nonincreasing (l : Loan) (principal : ℚ) (months : ℤ)
    (hi : 0 < l.interest) (hp : 0 < principal) (hm : 0 < months) :
    ∀ m : ℕ, (m : ℤ) + 1 < months →
      ∃ a b, (l.calculateDiff principal months).payments[m]? = some a ∧
        (l.calculateDiff principal months).payments[m + 1]? = some b ∧ b ≤ a := by
  intro m hlt
  have hni : 0 ≤ l.calculateNominalInterest := by
    unfold Loan.calculateNominalInterest
    exact le_of_lt (div_pos hi (by norm_num))
  have h1 : m < months.toNat := by omega
  have h2 : m + 1 < months.toNat := by omega
  rw [calculateDiff_eq l principal months hp hm]
  refine ⟨diffEntry l.calculateNominalInterest principal months m,
    diffEntry l.calculateNominalInterest principal months (m + 1), ?_, ?_,
    diffEntry_succ_le _ _ _ _ hni hp.le hm⟩
  · simp only [List.getElem?_map, List.getElem?_range h1, Option.map_some']
  · simp only [List.getElem?_map, List.getElem?_range h2, Option.map_some']

/-- C18 at interest 12, principal 100000 and 12 months, for the first two months. -/
theorem calculateDiff_nonincreasing_witness :
    (0 : ℚ) < 12 ∧ (0 : ℚ) < 100000 ∧ (0 : ℤ) < 12 ∧
    ∃ a b, (Loan.calculateDiff { interest := 12 } 100000 12).payments[0]? = some a ∧
      (Loan.calculateDiff { interest := 12 } 100000 12).payments[0 + 1]? = some b ∧ b ≤ a :=
  ⟨by norm_num, by norm_num, by norm_num,
    calculateDiff_nonincreasing { interest := 12 } 100000 12 (by norm_num) (by norm_num)
      (by norm_num) 0 (by norm_num)⟩

/-! ## Rounding: exponent and error bound -/

namespace F64

/-- The function `pow2` is the integer power of 2. -/
theorem pow2_eq (t : ℤ) : pow2 t = (2 : ℚ) ^ t := by
  unfold pow2
  by_cases h : 0 ≤ t
  · rw [if_pos h]
    obtain ⟨n, rfl⟩ := Int.eq_ofNat_of_zero_le h
    simp
  · rw [if_neg h]
    have hneg : 0 ≤ -t := by omega
    obtain ⟨n, hn⟩ := Int.eq_ofNat_of_zero_le hneg
    have ht : t = -(n : ℤ) := by omega
    rw [hn, ht]
    simp

theorem pow2_pos (t : ℤ) : 0 < pow2 t := by
  rw [pow2_eq]
  exact zpow_pos (by norm_num) t

theorem pow2_le_pow2 {a b : ℤ} (h : a ≤ b) : pow2 a ≤ pow2 b := by
  rw [pow2_eq, pow2_eq]
  exact zpow_le_zpow_right₀ (by norm_num) h

/-- The halving count brackets `n` between two powers of 2. -/
theorem log2Aux_spec (fuel n : ℕ) (hn : n ≠ 0) (hf : n ≤ fuel) :
    2 ^ log2Aux fuel n ≤ n ∧ n < 2 ^ (log2Aux fuel n + 1) := by
  induction fuel generalizing n with
  | zero => omega
  | succ fuel ih =>
    by_cases h2 : n < 2
    · have h1 : n = 1 := by omega
      subst h1
      simp [log2Aux]
    · have hlt : n / 2 ≤ fuel := by omega
      have hne : n / 2 ≠ 0 := by omega
      obtain ⟨ih1, ih2⟩ := ih (n / 2) hne hlt
      have e : log2Aux (fuel + 1) n = log2Aux fuel (n / 2) + 1 := by
        simp [log2Aux, h2]
      rw [e]
      have p1 : 2 ^ (log2Aux fuel (n / 2) + 1) = 2 * 2 ^ log2Aux fuel (n / 2) := by
        rw [pow_succ]; ring
      have p2 : 2 ^ (log2Aux fuel (n / 2) + 1 + 1) = 2 * 2 ^ (log2Aux fuel (n / 2) + 1) := by
        rw [pow_succ]; ring
      rw [p2]
      constructor
      · rw [p1]; omega
      · omega

theorem natLog2_spec (n : ℕ) (hn : n ≠ 0) :
    2 ^ natLog2 n ≤ n ∧ n < 2 ^ (natLog2 n + 1) :=
  log2Aux_spec n n hn (le_refl n)

/-- A quotient of two numbers, each within a factor 2 above a given one, is within a
factor 2 of the quotient of the given ones. -/
theorem div_bracket (N D A B : ℚ) (hA : 0 < A) (hB : 0 < B) (n1 : A ≤ N) (n2 : N < 2 * A)
    (d1 : B ≤ D) (d2 : D < 2 * B) : A / B / 2 ≤ N / D ∧ N / D < 2 * (A / B) := by
  have hD : 0 < D := lt_of_lt_of_le hB d1
  constructor
  · rw [div_div, div_le_div_iff₀ (by positivity) hD]
    nlinarith
  · rw [← mul_div_assoc, div_lt_div_iff₀ hD hB]
    nlinarith

/-- The exponent `ilog2 q` brackets `q > 0`: `2 ^ e ≤ q < 2 ^ (e + 1)`. -/
theorem ilog2_spec (q : ℚ) (hq : 0 < q) :
    pow2 (ilog2 q) ≤ q ∧ q < pow2 (ilog2 q + 1) := by
  have hnum : 0 < q.num := Rat.num_pos.mpr hq
  have hnat : q.num.natAbs ≠ 0 := by omega
  have hden : q.den ≠ 0 := q.den_nz
  obtain ⟨n1, n2⟩ := natLog2_spec q.num.natAbs hnat
  obtain ⟨d1, d2⟩ := natLog2_spec q.den hden
  have hcast : ((q.num.natAbs : ℕ) : ℚ) = (q.num : ℚ) := by
    rw [← Int.cast_natCast, Int.natAbs_of_nonneg hnum.le]
  have hqeq : (q.num.natAbs : ℚ) / (q.den : ℚ) = q := by
    rw [hcast]
    exact Rat.num_div_den q
  have n1q : (2 : ℚ) ^ natLog2 q.num.natAbs ≤ (q.num.natAbs : ℚ) := by exact_mod_cast n1
  have n2q : (q.num.natAbs : ℚ) < 2 * (2 : ℚ) ^ natLog2 q.num.natAbs := by
    have : (q.num.natAbs : ℚ) < (2 : ℚ) ^ (natLog2 q.num.natAbs + 1) := by exact_mod_cast n2
    rw [pow_succ] at this
    linarith
  have d1q : (2 : ℚ) ^ natLog2 q.den ≤ (q.den : ℚ) := by exact_mod_cast d1
  have d2q : (q.den : ℚ) < 2 * (2 : ℚ) ^ natLog2 q.den := by
    have : (q.den : ℚ) < (2 : ℚ) ^ (natLog2 q.den + 1) := by exact_mod_cast d2
    rw [pow_succ] at this
    linarith
  have hA : (0 : ℚ) < (2 : ℚ) ^ natLog2 q.num.natAbs := pow_pos (by norm_num) _
  have hB : (0 : ℚ) < (2 : ℚ) ^ natLog2 q.den := pow_pos (by norm_num) _
  have hbr := div_bracket _ _ _ _ hA hB n1q n2q d1q d2q
  rw [hqeq] at hbr
  obtain ⟨hlo, hup⟩ := hbr
  have hk : pow2 ((natLog2 q.num.natAbs : ℤ) - (natLog2 q.den : ℤ)) =
      (2 : ℚ) ^ natLog2 q.num.natAbs / (2 : ℚ) ^ natLog2 q.den := by
    rw [pow2_eq, zpow_sub₀ (by norm_num), zpow_natCast, zpow_natCast]
  have hk1 : pow2 ((natLog2 q.num.natAbs : ℤ) - (natLog2 q.den : ℤ) + 1) =
      2 * ((2 : ℚ) ^ natLog2 q.num.natAbs / (2 : ℚ) ^ natLog2 q.den) := by
    rw [pow2_eq, zpow_add_one₀ (by norm_num), ← pow2_eq, hk]; ring
  have hkm : pow2 ((natLog2 q.num.natAbs : ℤ) - (natLog2 q.den : ℤ) - 1) =
      ((2 : ℚ) ^ natLog2 q.num.natAbs / (2 : ℚ) ^ natLog2 q.den) / 2 := by
    rw [pow2_eq, zpow_sub_one₀ (by norm_num), ← pow2_eq, hk]; ring
  unfold ilog2
  simp only
  by_cases hc : pow2 ((natLog2 q.num.natAbs : ℤ) - (natLog2 q.den : ℤ)) ≤ q
  · rw [if_pos hc]
    exact ⟨hc, by rw [hk1]; exact hup⟩
  · rw [if_neg hc]
    refine ⟨by rw [hkm]; exact hlo, ?_⟩
    rw [sub_add_cancel]
    exact not_le.mp hc

/-- An upper bound on `q` bounds its exponent. -/
theorem ilog2_lt_of_lt_pow2 (q : ℚ) (hq : 0 < q) (j : ℤ) (h : q < pow2 j) : ilog2 q < j := by
  by_contra hge
  have h1 := (ilog2_spec q hq).1
  have h2 : pow2 j ≤ pow2 (ilog2 q) := pow2_le_pow2 (not_lt.mp hge)
  linarith

/-- A lower bound on `q` bounds its exponent. -/
theorem le_ilog2_of_pow2_le (q : ℚ) (hq : 0 < q) (j : ℤ) (h : pow2 j ≤ q) : j ≤ ilog2 q := by
  by_contra hlt
  have h1 := (ilog2_spec q hq).2
  have h2 : pow2 (ilog2 q + 1) ≤ pow2 j := pow2_le_pow2 (by omega)
  linarith

/-- Rounding to the nearest natural moves `s ≥ 0` by at most one half. -/
theorem roundHalfEven_sub_le (s : ℚ) (hs : 0 ≤ s) :
    |(roundHalfEven s : ℚ) - s| ≤ 1 / 2 := by
  have hfl : 0 ≤ ⌊s⌋ := Int.floor_nonneg.mpr hs
  have hcast : ((⌊s⌋.toNat : ℕ) : ℚ) = ((⌊s⌋ : ℤ) : ℚ) := by
    have : ((⌊s⌋.toNat : ℕ) : ℤ) = ⌊s⌋ := Int.toNat_of_nonneg hfl
    exact_mod_cast congrArg (fun z : ℤ => (z : ℚ)) this
  have h1 : ((⌊s⌋ : ℤ) : ℚ) ≤ s := Int.floor_le s
  have h2 : s < ((⌊s⌋ : ℤ) : ℚ) + 1 := Int.lt_floor_add_one s
  unfold roundHalfEven
  simp only
  rw [hcast]
  split_ifs with c1 c2 c3
  · rw [hcast, abs_le]; constructor <;> linarith
  · push_cast; rw [hcast, abs_le]; constructor <;> linarith
  · rw [hcast, abs_le]; constructor <;> linarith
  · push_cast; rw [hcast, abs_le]; constructor <;> linarith

/-- Rounding to the nearest natural fixes the naturals. -/
theorem roundHalfEven_natCast (n : ℕ) : roundHalfEven (n : ℚ) = n := by
  unfold roundHalfEven
  simp

/-- The result of rounding a magnitude `0 < q < 2 ^ 1023`: a finite value within half
a unit in the last place of `q`, and `q` itself when `q` is a multiple of that unit. -/
theorem round_spec (q : ℚ) (hq : 0 < q) (hlt : q < pow2 1023) :
    ∃ r : ℚ, round false q = fin false r ∧
      |r - q| ≤ pow2 (max (ilog2 q) (-1022) - 52) / 2 ∧
      ((∃ n : ℕ, q / pow2 (max (ilog2 q) (-1022) - 52) = n) → r = q) := by
  have he : ilog2 q < 1023 := ilog2_lt_of_lt_pow2 q hq 1023 hlt
  set t := max (ilog2 q) (-1022) - 52 with ht
  have htpos : 0 < pow2 t := pow2_pos t
  have hs : 0 ≤ q / pow2 t := le_of_lt (div_pos hq htpos)
  have herr := roundHalfEven_sub_le (q / pow2 t) hs
  have hrq : (roundHalfEven (q / pow2 t) : ℚ) * pow2 t - q =
      ((roundHalfEven (q / pow2 t) : ℚ) - q / pow2 t) * pow2 t := by
    field_simp
  have hbound : |(roundHalfEven (q / pow2 t) : ℚ) * pow2 t - q| ≤ pow2 t / 2 := by
    rw [hrq, abs_mul, abs_of_pos htpos]
    have := mul_le_mul_of_nonneg_right herr htpos.le
    linarith
  have htle : t ≤ 970 := by
    have : max (ilog2 q) (-1022) ≤ 1022 := max_le (by omega) (by norm_num)
    omega
  have hsmall : (roundHalfEven (q / pow2 t) : ℚ) * pow2 t < pow2 1024 := by
    have h1 := (abs_le.mp hbound).2
    have h2 : pow2 t ≤ pow2 1023 := pow2_le_pow2 (by omega)
    have h3 : pow2 1024 = 2 * pow2 1023 := by
      rw [pow2_eq, pow2_eq]
      rw [show (1024 : ℤ) = 1023 + 1 from rfl, zpow_add_one₀ (by norm_num)]
      ring
    have h4 : 0 < pow2 1023 := pow2_pos _
    linarith
  refine ⟨(roundHalfEven (q / pow2 t) : ℚ) * pow2 t, ?_, hbound, ?_⟩
  · unfold round
    rw [if_neg (ne_of_gt hq)]
    simp only
    rw [← ht, if_neg (not_le.mpr hsmall)]
  · rintro ⟨n, hn⟩
    rw [hn, roundHalfEven_natCast, ← hn]
    field_simp

end F64

/-! ## `convertToYears` in `float64` -/

/-- The conversion `float64(n)` is exact for `0 < n < 2^53`. -/
theorem ofInt_exact (n : ℤ) (h0 : 0 < n) (hlt : n < 2 ^ 53) :
    F64.ofInt n = F64.fin false (n : ℚ) := by
  have hq : (0 : ℚ) < (n : ℚ) := by exact_mod_cast h0
  have hq1 : (1 : ℚ) ≤ (n : ℚ) := by exact_mod_cast h0
  have hqlt : (n : ℚ) < F64.pow2 53 := by
    rw [F64.pow2_eq]
    have h : (n : ℚ) < ((2 ^ 53 : ℤ) : ℚ) := by exact_mod_cast hlt
    norm_num at h ⊢
    exact h
  have hlt1023 : (n : ℚ) < F64.pow2 1023 :=
    lt_of_lt_of_le hqlt (F64.pow2_le_pow2 (by norm_num))
  have he1 : 0 ≤ F64.ilog2 (n : ℚ) :=
    F64.le_ilog2_of_pow2_le _ hq 0 (by rw [F64.pow2_eq]; simpa using hq1)
  have he2 : F64.ilog2 (n : ℚ) < 53 := F64.ilog2_lt_of_lt_pow2 _ hq 53 hqlt
  obtain ⟨r, hr, -, hex⟩ := F64.round_spec (n : ℚ) hq hlt1023
  have hmax : max (F64.ilog2 (n : ℚ)) (-1022) = F64.ilog2 (n : ℚ) := max_eq_left (by omega)
  have hnat : ∃ k : ℕ, (n : ℚ) / F64.pow2 (max (F64.ilog2 (n : ℚ)) (-1022) - 52) = k := by
    rw [hmax]
    obtain ⟨j, hj⟩ := Int.eq_ofNat_of_zero_le (show 0 ≤ 52 - F64.ilog2 (n : ℚ) by omega)
    obtain ⟨a, ha⟩ := Int.eq_ofNat_of_zero_le h0.le
    refine ⟨a * 2 ^ j, ?_⟩
    have ht : F64.ilog2 (n : ℚ) - 52 = -(j : ℤ) := by omega
    rw [ht, F64.pow2_eq, zpow_neg, zpow_natCast, ha]
    push_cast
    field_simp
  have hrq := hex hnat
  have hof : F64.ofInt n = F64.round false (n : ℚ) := by
    unfold F64.ofInt F64.ofRat
    rw [abs_of_pos hq]
    have : decide ((n : ℚ) < 0) = false := decide_eq_false (not_lt.mpr hq.le)
    rw [this]
  rw [hof, hr, hrq]

/-- The conversion to `int` of the floor of a finite value `0 ≤ r < 2^62` is `⌊r⌋`. -/
theorem toInt_floor (r : ℚ) (h0 : 0 ≤ r) (hlt : r < 2 ^ 62) :
    F64.toInt (F64.floor (F64.fin false r)) = some ⌊r⌋ := by
  have hf0 : 0 ≤ ⌊r⌋ := Int.floor_nonneg.mpr h0
  have hflt : ⌊r⌋ < 2 ^ 62 := by
    have : (⌊r⌋ : ℚ) ≤ r := Int.floor_le r
    have h2 : (⌊r⌋ : ℚ) < ((2 ^ 62 : ℤ) : ℚ) := by
      push_cast
      linarith
    exact_mod_cast h2
  by_cases hz : ⌊r⌋ = 0
  · simp [F64.floor, F64.value, hz, F64.toInt]
  · have hneg : decide (⌊r⌋ < 0) = false := decide_eq_false (by omega)
    have habs : |⌊r⌋| = ⌊r⌋ := abs_of_nonneg hf0
    simp only [F64.floor, F64.value, Bool.false_eq_true, if_false, hz, hneg, habs, F64.toInt,
      Int.floor_intCast]
    rw [if_pos ⟨by omega, by omega⟩]

/-- C10, amended: for 0 ≤ months ≤ 2^53 the `float64` computation of `convertToYears`
returns years = floor(months / 12) and remainder = months mod 12, with
12 * years + remainder = months and 0 ≤ remainder < 12. -/
theorem convertToYearsF64_spec (months : ℤ) (h0 : 0 ≤ months) (hle : months ≤ 2 ^ 53) :
    convertToYearsF64 months = (some (months / 12), months % 12) ∧
    12 * (months / 12) + months % 12 = months ∧
    0 ≤ months % 12 ∧ months % 12 < 12 := by
  refine ⟨?_, by omega, by omega, by omega⟩
  have hrem : Int.tmod months 12 = months % 12 := Int.tmod_eq_emod h0 (by norm_num)
  rcases eq_or_lt_of_le h0 with hz | hpos
  · subst hz
    decide!
  rcases eq_or_lt_of_le hle with htop | hlt
  · subst htop
    decide!
  have h12 : F64.ofRat 12 = F64.fin false 12 := by decide!
  have hq : (0 : ℚ) < (months : ℚ) / 12 := by
    have : (0 : ℚ) < (months : ℚ) := by exact_mod_cast hpos
    positivity
  have hmq : (months : ℚ) < 2 ^ 53 := by
    have : (months : ℚ) < ((2 ^ 53 : ℤ) : ℚ) := by exact_mod_cast hlt
    simpa using this
  have hq50 : (months : ℚ) / 12 < F64.pow2 50 := by
    rw [F64.pow2_eq, div_lt_iff₀ (by norm_num)]
    have : ((2 : ℚ) ^ (50 : ℤ)) * 12 = 2 ^ 53 * (3 / 2) := by norm_num
    rw [this]
    linarith
  have hq1023 : (months : ℚ) / 12 < F64.pow2 1023 :=
    lt_of_lt_of_le hq50 (F64.pow2_le_pow2 (by norm_num))
  have he : F64.ilog2 ((months : ℚ) / 12) < 50 := F64.ilog2_lt_of_lt_pow2 _ hq 50 hq50
  obtain ⟨r, hr, herr, hex⟩ := F64.round_spec ((months : ℚ) / 12) hq hq1023
  have htle : max (F64.ilog2 ((months : ℚ) / 12)) (-1022) - 52 ≤ -3 := by
    have : max (F64.ilog2 ((months : ℚ) / 12)) (-1022) ≤ 49 := max_le (by omega) (by norm_num)
    omega
  have hulp : F64.pow2 (max (F64.ilog2 ((months : ℚ) / 12)) (-1022) - 52) ≤ 1 / 8 := by
    have h := F64.pow2_le_pow2 htle
    have h3 : F64.pow2 (-3) = 1 / 8 := by
      rw [F64.pow2_eq]; norm_num
    linarith
  have hdiv : F64.div (F64.ofInt months) (F64.ofRat 12) = F64.fin false r := by
    rw [ofInt_exact months hpos hlt, h12]
    simp only [F64.div]
    rw [if_neg (by norm_num)]
    simpa using hr
  -- the quotient and remainder of the division by 12
  have hdm : (months : ℚ) / 12 = ((months / 12 : ℤ) : ℚ) + ((months % 12 : ℤ) : ℚ) / 12 := by
    have h := Int.ediv_add_emod months 12
    have hc : (months : ℚ) = 12 * ((months / 12 : ℤ) : ℚ) + ((months % 12 : ℤ) : ℚ) := by
      exact_mod_cast h.symm
    rw [hc]
    ring
  have hk0 : 0 ≤ months / 12 := by omega
  have hj0 : (0 : ℚ) ≤ ((months % 12 : ℤ) : ℚ) := by
    have : 0 ≤ months % 12 := by omega
    exact_mod_cast this
  have hj11 : ((months % 12 : ℤ) : ℚ) ≤ 11 := by
    have : months % 12 ≤ 11 := by omega
    exact_mod_cast this
  have hfloor : ⌊r⌋ = months / 12 := by
    rw [Int.floor_eq_iff]
    have hb := abs_le.mp herr
    by_cases hj : months % 12 = 0
    · -- the quotient is an integer and is not rounded
      have hqk : (months : ℚ) / 12 = ((months / 12 : ℤ) : ℚ) := by
        rw [hdm, hj]; simp
      have hnat : ∃ n : ℕ, (months : ℚ) / 12 /
          F64.pow2 (max (F64.ilog2 ((months : ℚ) / 12)) (-1022) - 52) = n := by
        obtain ⟨a, ha⟩ := Int.eq_ofNat_of_zero_le hk0
        obtain ⟨j, hj'⟩ := Int.eq_ofNat_of_zero_le
          (show 0 ≤ -(max (F64.ilog2 ((months : ℚ) / 12)) (-1022) - 52) by omega)
        refine ⟨a * 2 ^ j, ?_⟩
        have ht : max (F64.ilog2 ((months : ℚ) / 12)) (-1022) - 52 = -(j : ℤ) := by omega
        rw [ht, F64.pow2_eq, zpow_neg, zpow_natCast, hqk, ha]
        push_cast
        field_simp
      rw [hex hnat, hqk]
      constructor <;> linarith
    · have hj1 : (1 : ℚ) ≤ ((months % 12 : ℤ) : ℚ) := by
        have : 1 ≤ months % 12 := by omega
        exact_mod_cast this
      constructor <;> linarith
  have hr0 : 0 ≤ r := by
    have hb := abs_le.mp herr
    have : (0 : ℚ) ≤ ((months / 12 : ℤ) : ℚ) := by exact_mod_cast hk0
    by_contra hneg
    have hfl : ⌊r⌋ < 0 := Int.floor_lt.mpr (by simpa using not_le.mp hneg)
    omega
  have hr62 : r < 2 ^ 62 := by
    have hb := abs_le.mp herr
    have h50 : F64.pow2 50 = 2 ^ 50 := by rw [F64.pow2_eq]; norm_num
    rw [h50] at hq50
    have : (2 : ℚ) ^ 50 + 1 / 16 < 2 ^ 62 := by norm_num
    linarith
  unfold convertToYearsF64
  rw [hdiv, toInt_floor r hr0 hr62, hfloor, hrem]

/-- C10 at 98 months: 8 years and 2 months. -/
theorem convertToYearsF64_spec_witness :
    (0 : ℤ) ≤ 98 ∧ (98 : ℤ) ≤ 2 ^ 53 ∧
    convertToYearsF64 98 = (some (98 / 12), 98 % 12) ∧
    convertToYearsF64 98 = (some 8, 2) := by
  have h := convertToYearsF64_spec 98 (by norm_num) (by norm_num)
  exact ⟨by norm_num, by norm_num, h.1, h.1⟩

/-! ## Where `float64` arithmetic departs from exact arithmetic -/

/-- C4 as stated fails in `float64`: with interest 12, principal 1e308 and 3 months
the product `principal * 2` overflows and the third entry of the schedule is `-Inf`,
which is no natural number. -/
theorem calculateDiffF64_entry_neg_inf :
    F64.lt F64.zero (F64.ofRat 12) = true ∧
    F64.lt F64.zero (F64.ofRat (10 ^ 308)) = true ∧ (0 : ℤ) < 3 ∧
    (calculateDiffF64 (F64.ofRat 12) (F64.ofRat (10 ^ 308)) 3).err = none ∧
    (calculateDiffF64 (F64.ofRat 12) (F64.ofRat (10 ^ 308)) 3).payments[2]? =
      some (F64.inf true) := by
  decide!

/-- C17 as stated fails in `float64`: with interest 1e-15, principal 1e17 and 3 months
the three entries are 33333333333333332, their `float64` sum is 1e17, and the
overpayment returned is 0: the branch that clamps it is taken. -/
theorem calculateDiffF64_overpayment_zero :
    F64.lt F64.zero (F64.ofRat (1 / 10 ^ 15)) = true ∧
    F64.lt F64.zero (F64.ofRat (10 ^ 17)) = true ∧ (0 : ℤ) < 3 ∧
    calculateDiffF64 (F64.ofRat (1 / 10 ^ 15)) (F64.ofRat (10 ^ 17)) 3 =
      { payments := [F64.fin false 33333333333333332, F64.fin false 33333333333333332,
          F64.fin false 33333333333333332]
        overpayment := F64.fin false 0
        err := none } ∧
    F64.lt F64.zero
      (calculateDiffF64 (F64.ofRat (1 / 10 ^ 15)) (F64.ofRat (10 ^ 17)) 3).overpayment =
        false := by
  decide!

/-- C18 as stated fails in `float64`: with interest 5e-324, principal 1e308 and
3 months `interest / 1200` underflows to 0, `principal * 2` overflows, and the third
entry is `0 * -Inf = NaN`, which is not at most the second entry. -/
theorem calculateDiffF64_entry_nan :
    F64.lt F64.zero (F64.ofRat (5 / 10 ^ 324)) = true ∧
    F64.lt F64.zero (F64.ofRat (10 ^ 308)) = true ∧ (0 : ℤ) < 3 ∧ ((1 : ℕ) : ℤ) + 1 < 3 ∧
    (calculateDiffF64 (F64.ofRat (5 / 10 ^ 324)) (F64.ofRat (10 ^ 308)) 3).err = none ∧
    (calculateDiffF64 (F64.ofRat (5 / 10 ^ 324)) (F64.ofRat (10 ^ 308)) 3).payments[1 + 1]? =
      some F64.nan ∧
    ((calculateDiffF64 (F64.ofRat (5 / 10 ^ 324)) (F64.ofRat (10 ^ 308)) 3).payments[1]?).map
      (fun a => F64.le F64.nan a) = some false := by
  decide!

/-- C10 as stated fails in `float64`: for months = 2^53 + 3 the conversion
`float64(months)` rounds to 2^53 + 4 and `convertToYears` returns
(750599937895083, 11), so that 12 * years + remainder is not `months`; the floor
of months / 12 is 750599937895082. -/
theorem convertToYearsF64_above_two_pow_53 :
    (0 : ℤ) ≤ 2 ^ 53 + 3 ∧
    convertToYearsF64 (2 ^ 53 + 3) = (some 750599937895083, 11) ∧
    (12 * 750599937895083 + 11 : ℤ) ≠ 2 ^ 53 + 3 ∧
    ((2 ^ 53 + 3 : ℤ) / 12) = 750599937895082 := by
  decide!

/-- C16 as stated fails in `float64`: with interest 1200, principal 1000 and 1024
months `math.Pow(2, 1024)` is `+Inf`, the payment is `Inf / Inf = NaN`, the total
`payment * months` is not greater than the principal and the overpayment is not
positive, so it is not printed. -/
theorem calculatePaymentF64_nan :
    F64.lt F64.zero (F64.ofRat 1200) = true ∧
    F64.lt F64.zero (F64.ofRat 1000) = true ∧ (1 : ℤ) ≤ 1024 ∧
    calculatePaymentF64 (F64.ofRat 1200) (F64.ofRat 1000) 1024 = F64.nan ∧
    F64.lt (F64.ofRat 1000)
      (F64.mul (calculatePaymentF64 (F64.ofRat 1200) (F64.ofRat 1000) 1024)
        (F64.ofInt 1024)) = false ∧
    F64.lt F64.zero
      (F64.sub (F64.mul (calculatePaymentF64 (F64.ofRat 1200) (F64.ofRat 1000) 1024)
        (F64.ofInt 1024)) (F64.ofRat 1000)) = false := by
  decide!

/-- A zero divided by any `float64` is a zero or `NaN`, so its ceiling converts to
0 or to nothing. -/
theorem toInt_ceil_zero_div (y : F64) (n : ℤ)
    (h : F64.toInt (F64.ceil (F64.div (F64.fin false 0) y)) = some n) : n = 0 := by
  cases y with
  | nan => simp [F64.div, F64.ceil, F64.toInt] at h
  | inf s => 
    simp [F64.div, F64.ceil, F64.toInt, F64.value] at h
    omega
  | fin s m =>
    by_cases hm : m = 0
    · simp [F64.div, hm, F64.ceil, F64.toInt] at h
    · simp [F64.div, hm, F64.round, F64.ceil, F64.toInt, F64.value] at h
      omega

/-- C9 as stated fails in `float64`: with interest 12, principal 1 and payment 1e15
(above the first month's interest 0.01) the difference `payment - 0.01` rounds to
`payment`, the argument of the logarithm is 1 and `math.Log(1) = 0`; whatever
`math.Log(1.01)` is, the period is 0 when it is a number at all, never at least 1. -/
theorem calculatePeriodF64_zero :
    F64.lt F64.zero (F64.ofRat 12) = true ∧ F64.lt F64.zero (F64.ofRat 1) = true ∧
    F64.lt (F64.mul (calculateNominalInterestF64 (F64.ofRat 12)) (F64.ofRat 1))
      (F64.ofRat (10 ^ 15)) = true ∧
    (12 : ℚ) / 1200 * 1 < 10 ^ 15 ∧
    ∀ (logFinite : ℚ → F64) (n : ℤ),
      calculatePeriodF64 logFinite (F64.ofRat 12) (F64.ofRat 1) (F64.ofRat (10 ^ 15)) =
        some n → n = 0 := by
  refine ⟨by decide!, by decide!, by decide!, by norm_num, ?_⟩
  intro logFinite n h
  have harg : F64.div (F64.ofRat (10 ^ 15))
      (F64.sub (F64.ofRat (10 ^ 15))
        (F64.mul (calculateNominalInterestF64 (F64.ofRat 12)) (F64.ofRat 1))) =
      F64.fin false 1 := by decide!
  have hlog : F64.log logFinite (F64.fin false 1) = F64.fin false 0 := by
    simp [F64.log]
  simp only [calculatePeriodF64, harg, hlog] at h
  exact toInt_ceil_zero_div _ n h

/-- `NaN` divided by any `float64` is `NaN`. -/
theorem nan_div (y : F64) : F64.div F64.nan y = F64.nan := by
  cases y <;> rfl

/-- C7 as stated fails in `float64`: with interest 19.1, principal 13000 and the
payments p1 = 206.91666666666669 ≤ p2 = 413.83333333333337, both above the first
month's interest, the product `nominalInterest * principal` rounds above p1, the
argument of the logarithm at p1 is negative, `math.Log` gives `NaN` and the period at
p1 is the conversion of `NaN` to `int`, not a number of months that the period at p2
could be compared with. -/
theorem calculatePeriodF64_nan :
    F64.lt F64.zero (F64.ofRat (191 / 10)) = true ∧
    F64.lt F64.zero (F64.ofRat 13000) = true ∧
    F64.le (F64.ofRat (20691666666666669 / 10 ^ 14))
      (F64.ofRat (41383333333333337 / 10 ^ 14)) = true ∧
    ((191 : ℚ) / 10) / 1200 * 13000 < 20691666666666669 / 10 ^ 14 ∧
    ((191 : ℚ) / 10) / 1200 * 13000 < 41383333333333337 / 10 ^ 14 ∧
    (∀ logFinite : ℚ → F64,
      calculatePeriodF64 logFinite (F64.ofRat (191 / 10)) (F64.ofRat 13000)
        (F64.ofRat (20691666666666669 / 10 ^ 14)) = none) ∧
    ∀ logFinite : ℚ → F64, ¬ ∃ n1 n2 : ℤ,
      calculatePeriodF64 logFinite (F64.ofRat (191 / 10)) (F64.ofRat 13000)
        (F64.ofRat (20691666666666669 / 10 ^ 14)) = some n1 ∧
      calculatePeriodF64 logFinite (F64.ofRat (191 / 10)) (F64.ofRat 13000)
        (F64.ofRat (41383333333333337 / 10 ^ 14)) = some n2 ∧ n2 ≤ n1 := by
  have hnone : ∀ logFinite : ℚ → F64,
      calculatePeriodF64 logFinite (F64.ofRat (191 / 10)) (F64.ofRat 13000)
        (F64.ofRat (20691666666666669 / 10 ^ 14)) = none := by
    intro logFinite
    have harg : F64.div (F64.ofRat (20691666666666669 / 10 ^ 14))
        (F64.sub (F64.ofRat (20691666666666669 / 10 ^ 14))
          (F64.mul (calculateNominalInterestF64 (F64.ofRat (191 / 10))) (F64.ofRat 13000))) =
        F64.fin true 7280232991380822 := by decide!
    have hlog : F64.log logFinite (F64.fin true 7280232991380822) = F64.nan := by
      simp [F64.log]
    simp only [calculatePeriodF64, harg, hlog, nan_div]
    rfl
  refine ⟨by decide!, by decide!, by decide!, by norm_num, by norm_num, hnone, ?_⟩
  rintro logFinite ⟨n1, n2, h1, -, -⟩
  rw [hnone logFinite] at h1
  exact Option.noConfusion h1

end LoanCalculator
